import Mathlib

/-!
Verification development for the JSON-to-ZIP converter repository.

The repository converts an arbitrary JSON value into a hierarchy of files and
folders packaged into a ZIP archive.  The logic under scrutiny lives in
`src/lib/zipGenerator.js` (the zip writer, preview-tree builder, name
sanitizer and statistics collector), `src/pages/api/generate-zip.js` (the API
route with its own recursive converter) and `src/unnamed/part_003` (the
tree-preview module with `generateTreeStructure`, `getFileExtension`,
`TreeNode` and `getTreeStatistics`).

Conventions of the embedding:
- JSON values are a closed tagged variant `Json` (numbers carried as integers;
  floating-point formatting is outside the scope of every claim considered).
- Mutable JSZip folder objects are modelled by lists of `ZipWrite` records
  (file writes carrying a path and a content string, and folder creations).
- `new Date()` timestamps are threaded in as an explicit `now : String`
  parameter wherever the source calls `toISOString()`.
- The JS builtin `JSON.parse` used by `getFileExtension` is modelled by the
  executable validator `jsonParses` (ECMA-404 grammar); theorems that do not
  depend on concrete parses are stated for an arbitrary oracle
  `p : String → Bool` in its place.
-/

/-! ### Character classes used by the JS string operations -/

/-- Whitespace recognised by the JS regex class `\s` and by
`String.prototype.trim`. -/
def isJsWs (c : Char) : Bool :=
  c = ' ' || c = '\t' || c = '\n' || c = '\r' || c.val = 0x0b || c.val = 0x0c ||
  c.val = 0xa0 || c.val = 0x1680 || (0x2000 ≤ c.val && c.val ≤ 0x200a) ||
  c.val = 0x2028 || c.val = 0x2029 || c.val = 0x202f || c.val = 0x205f ||
  c.val = 0x3000 || c.val = 0xfeff

/-- The characters replaced by `sanitizeFileName`'s first regex,
`/[<>:"/\\|?*]/g`  (src/lib/zipGenerator.js line 135). -/
def forbiddenChar (c : Char) : Bool :=
  c = '<' || c = '>' || c = ':' || c = '"' || c = '/' || c = '\\' ||
  c = '|' || c = '?' || c = '*'

/-! ### sanitizeFileName  (src/lib/zipGenerator.js lines 133-140)

The JS pipeline is
`.replace(/[<>:"/\\|?*]/g,'_').replace(/\s+/g,'_').replace(/_+/g,'_')
.replace(/^_|_$/g,'').substring(0,255)`; each stage is embedded as a function
on `List Char` below (a JS string position is modelled as one character). -/

/-- Stage 1: `/[<>:"/\\|?*]/g → '_'`. -/
def replaceForbidden (l : List Char) : List Char :=
  l.map (fun c => if forbiddenChar c then '_' else c)

/-- Whether a character list starts with a JS whitespace character. -/
def headIsWs : List Char → Bool
  | [] => false
  | c :: _ => isJsWs c

/-- Stage 2: `/\s+/g → '_'`; each maximal whitespace run becomes one `_`
(all characters of a run except the last are dropped, the last becomes `_`). -/
def collapseWs : List Char → List Char
  | [] => []
  | c :: cs =>
    if isJsWs c && headIsWs cs then collapseWs cs
    else (if isJsWs c then '_' else c) :: collapseWs cs

/-- Whether a character list starts with an underscore. -/
def headIsUnd : List Char → Bool
  | [] => false
  | c :: _ => c = '_'

/-- Stage 3: `/_+/g → '_'`; each maximal underscore run becomes one `_`. -/
def collapseUnd : List Char → List Char
  | [] => []
  | c :: cs =>
    if c = '_' && headIsUnd cs then collapseUnd cs
    else c :: collapseUnd cs

/-- Removes a single leading underscore, the `^_` alternative of the
stage-4 regex. -/
def dropLeadUnd : List Char → List Char
  | [] => []
  | c :: rest => if c = '_' then rest else c :: rest

/-- Stage 4: `/^_|_$/g → ''`; removes one leading and one trailing
underscore (the regex matches at most once at each end; the trailing
removal is expressed by reversing, dropping a leading underscore and
reversing back). -/
def trimUnd (l : List Char) : List Char :=
  (dropLeadUnd ((dropLeadUnd l).reverse)).reverse

/-- The four regex stages of `sanitizeFileName`, before truncation. -/
def sanitizeCore (l : List Char) : List Char :=
  trimUnd (collapseUnd (collapseWs (replaceForbidden l)))

/-- `sanitizeFileName` from src/lib/zipGenerator.js: the four regex stages
followed by `substring(0, 255)`. -/
def sanitizeFileName (s : String) : String :=
  String.mk ((sanitizeCore s.data).take 255)

example : sanitizeFileName "a b" = "a_b" := by decide
example : sanitizeFileName "  a   b " = "a_b" := by decide
example : sanitizeFileName "a<>:b" = "a_b" := by decide
example : sanitizeFileName "" = "" := by decide
example : sanitizeFileName "_" = "" := by decide
example : sanitizeFileName "__" = "" := by decide
example : sanitizeFileName "null.json" = "null.json" := by decide

/-! ### Cleanliness predicates for sanitized names -/

/-- No character of the list is in the forbidden class. -/
def NoFb (l : List Char) : Prop := ∀ c ∈ l, forbiddenChar c = false

/-- No character of the list is JS whitespace. -/
def NoWs (l : List Char) : Prop := ∀ c ∈ l, isJsWs c = false

/-- No two adjacent characters of the list are both underscores. -/
def NoDU (l : List Char) : Prop := l.Chain' (fun a b => ¬ (a = '_' ∧ b = '_'))

theorem noFb_replaceForbidden (l : List Char) : NoFb (replaceForbidden l) := by
  intro c hc
  simp only [replaceForbidden, List.mem_map] at hc
  obtain ⟨a, _, rfl⟩ := hc
  by_cases h : forbiddenChar a = true
  · simp [h]; decide
  · simp [Bool.not_eq_true] at h; simp [h]

theorem replaceForbidden_of_noFb (l : List Char) (h : NoFb l) :
    replaceForbidden l = l := by
  induction l with
  | nil => rfl
  | cons c cs ih =>
    have hc := h c (by simp)
    simp only [replaceForbidden, List.map_cons, hc, if_false]
    have := ih (fun x hx => h x (by simp [hx]))
    simpa [replaceForbidden] using this

theorem noWs_collapseWs (l : List Char) : NoWs (collapseWs l) := by
  induction l with
  | nil => intro c hc; simp [collapseWs] at hc
  | cons c cs ih =>
    intro d hd
    simp only [collapseWs] at hd
    by_cases h1 : (isJsWs c && headIsWs cs) = true
    · rw [if_pos h1] at hd; exact ih d hd
    · rw [if_neg h1] at hd
      rcases List.mem_cons.mp hd with h2 | h2
      · subst h2
        by_cases h3 : isJsWs c = true
        · simp [h3]; decide
        · simp [Bool.not_eq_true] at h3; simp [h3]
      · exact ih d h2

theorem collapseWs_of_noWs (l : List Char) (h : NoWs l) : collapseWs l = l := by
  induction l with
  | nil => rfl
  | cons c cs ih =>
    have hc := h c (by simp)
    have hrest : NoWs cs := fun x hx => h x (by simp [hx])
    simp [collapseWs, hc, ih hrest]

theorem mem_collapseWs (l : List Char) (c : Char) (hc : c ∈ collapseWs l) :
    c ∈ l ∨ c = '_' := by
  induction l with
  | nil => simp [collapseWs] at hc
  | cons a cs ih =>
    simp only [collapseWs] at hc
    by_cases h1 : (isJsWs a && headIsWs cs) = true
    · rw [if_pos h1] at hc
      rcases ih hc with h | h
      · exact Or.inl (by simp [h])
      · exact Or.inr h
    · rw [if_neg h1] at hc
      rcases List.mem_cons.mp hc with h2 | h2
      · by_cases h3 : isJsWs a = true
        · simp [h3] at h2; exact Or.inr h2
        · simp [Bool.not_eq_true] at h3; simp [h3] at h2; exact Or.inl (by simp [h2])
      · rcases ih h2 with h | h
        · exact Or.inl (by simp [h])
        · exact Or.inr h

theorem noFb_collapseWs (l : List Char) (h : NoFb l) : NoFb (collapseWs l) := by
  intro c hc
  rcases mem_collapseWs l c hc with h1 | h1
  · exact h c h1
  · subst h1; decide

theorem mem_collapseUnd (l : List Char) (c : Char) (hc : c ∈ collapseUnd l) :
    c ∈ l := by
  induction l with
  | nil => simp [collapseUnd] at hc
  | cons a cs ih =>
    simp only [collapseUnd] at hc
    by_cases h1 : (a = '_' && headIsUnd cs) = true
    · rw [if_pos h1] at hc; exact List.mem_cons_of_mem _ (ih hc)
    · rw [if_neg h1] at hc
      rcases List.mem_cons.mp hc with h2 | h2
      · simp [h2]
      · exact List.mem_cons_of_mem _ (ih h2)

theorem collapseUnd_of_noDU (l : List Char) (h : NoDU l) : collapseUnd l = l := by
  induction l with
  | nil => rfl
  | cons c cs ih =>
    rw [NoDU, List.chain'_cons'] at h
    obtain ⟨h1, h2⟩ := h
    have hskip : (c = '_' && headIsUnd cs) = false := by
      cases cs with
      | nil => simp [headIsUnd]
      | cons d ds =>
        have := h1 d (by simp)
        simp only [headIsUnd]
        by_cases hcu : c = '_'
        · by_cases hdu : d = '_'
          · exact absurd ⟨hcu, hdu⟩ this
          · simp [hdu]
        · simp [hcu]
    simp [collapseUnd, hskip, ih h2]

theorem headIsUnd_collapseUnd (l : List Char) :
    headIsUnd (collapseUnd l) = headIsUnd l := by
  induction l with
  | nil => rfl
  | cons c cs ih =>
    simp only [collapseUnd]
    by_cases h1 : (c = '_' && headIsUnd cs) = true
    · rw [if_pos h1]
      simp only [Bool.and_eq_true, decide_eq_true_eq] at h1
      obtain ⟨h2, h3⟩ := h1
      rw [ih, h3, headIsUnd, h2]
      simp
    · rw [if_neg h1]; rfl

theorem noDU_collapseUnd (l : List Char) : NoDU (collapseUnd l) := by
  induction l with
  | nil => exact List.chain'_nil
  | cons c cs ih =>
    simp only [collapseUnd]
    by_cases h1 : (c = '_' && headIsUnd cs) = true
    · rw [if_pos h1]; exact ih
    · rw [if_neg h1]
      rw [NoDU, List.chain'_cons']
      refine ⟨?_, ih⟩
      intro y hy
      intro ⟨hcu, hyu⟩
      have hhead : headIsUnd cs = false := by
        by_cases h2 : headIsUnd cs = true
        · exact absurd (by simp [hcu, h2]) h1
        · exact Bool.not_eq_true _ ▸ (by simpa using h2)
      have : headIsUnd (collapseUnd cs) = true := by
        cases hcoll : collapseUnd cs with
        | nil => simp [hcoll] at hy
        | cons z zs =>
          simp [hcoll] at hy
          subst hy
          simp [headIsUnd, hyu]
      rw [headIsUnd_collapseUnd] at this
      rw [hhead] at this
      exact Bool.false_ne_true this

/-! ### Lemmas about the trim stage -/

theorem dropLeadUnd_of_head (l : List Char) (h : headIsUnd l = false) :
    dropLeadUnd l = l := by
  cases l with
  | nil => rfl
  | cons c cs =>
    simp only [headIsUnd, decide_eq_false_iff_not] at h
    simp [dropLeadUnd, h]

theorem headIsUnd_dropLeadUnd (l : List Char) (h : NoDU l) :
    headIsUnd (dropLeadUnd l) = false := by
  cases l with
  | nil => rfl
  | cons c cs =>
    by_cases hc : c = '_'
    · subst hc
      have hdl : dropLeadUnd ('_' :: cs) = cs := by simp [dropLeadUnd]
      rw [hdl]
      rw [NoDU, List.chain'_cons'] at h
      cases cs with
      | nil => rfl
      | cons d ds =>
        have hnot := h.1 d (by simp)
        simp only [headIsUnd, decide_eq_false_iff_not]
        intro hdu
        exact hnot ⟨rfl, hdu⟩
    · simp [dropLeadUnd, hc, headIsUnd]

theorem noDU_dropLeadUnd (l : List Char) (h : NoDU l) : NoDU (dropLeadUnd l) := by
  cases l with
  | nil => exact h
  | cons c cs =>
    by_cases hc : c = '_'
    · simp only [dropLeadUnd, hc, if_pos rfl]
      exact (List.chain'_cons'.mp h).2
    · simpa [dropLeadUnd, hc] using h

theorem mem_dropLeadUnd (l : List Char) (c : Char) (hc : c ∈ dropLeadUnd l) :
    c ∈ l := by
  cases l with
  | nil => exact hc
  | cons a cs =>
    by_cases ha : a = '_'
    · simp only [dropLeadUnd, ha, if_pos rfl] at hc
      exact List.mem_cons_of_mem _ hc
    · simpa [dropLeadUnd, ha] using hc

theorem length_dropLeadUnd (l : List Char) :
    (dropLeadUnd l).length ≤ l.length := by
  cases l with
  | nil => exact le_refl _
  | cons a cs =>
    by_cases ha : a = '_'
    · simp [dropLeadUnd, ha]
    · simp [dropLeadUnd, ha]

theorem noDU_reverse (l : List Char) : NoDU l.reverse ↔ NoDU l := by
  rw [NoDU, NoDU, List.chain'_reverse]
  constructor
  · intro h
    exact h.imp (fun a b hab => fun ⟨h1, h2⟩ => hab ⟨h2, h1⟩)
  · intro h
    exact h.imp (fun a b hab => fun ⟨h1, h2⟩ => hab ⟨h2, h1⟩)

theorem trimUnd_clean (l : List Char) (h : NoDU l) :
    headIsUnd (trimUnd l) = false ∧ headIsUnd (trimUnd l).reverse = false ∧
    NoDU (trimUnd l) := by
  have hm : NoDU (dropLeadUnd l) := noDU_dropLeadUnd l h
  have hmh : headIsUnd (dropLeadUnd l) = false := headIsUnd_dropLeadUnd l h
  have hmr : NoDU (dropLeadUnd l).reverse := (noDU_reverse _).mpr hm
  refine ⟨?_, ?_, ?_⟩
  · show headIsUnd (dropLeadUnd ((dropLeadUnd l).reverse)).reverse = false
    cases hrev : (dropLeadUnd l).reverse with
    | nil => simp [hrev, dropLeadUnd, headIsUnd]
    | cons c rest =>
      by_cases hc : c = '_'
      · simp only [dropLeadUnd, hc, if_pos rfl]
        have hml : dropLeadUnd l = ('_' :: rest).reverse := by
          rw [← hc, ← hrev, List.reverse_reverse]
        cases hrr : rest.reverse with
        | nil => simp [hrr, headIsUnd]
        | cons z zs =>
          have : dropLeadUnd l = z :: (zs ++ ['_']) := by
            rw [hml, List.reverse_cons, hrr]
            exact List.cons_append z zs ['_']
          rw [this] at hmh
          simpa [headIsUnd, hrr] using hmh
      · rw [dropLeadUnd_of_head _ (by simp [headIsUnd, hc])]
        rw [← hrev, List.reverse_reverse]
        exact hmh
  · show headIsUnd (dropLeadUnd ((dropLeadUnd l).reverse)).reverse.reverse = false
    rw [List.reverse_reverse]
    exact headIsUnd_dropLeadUnd _ hmr
  · show NoDU (dropLeadUnd ((dropLeadUnd l).reverse)).reverse
    exact (noDU_reverse _).mpr (noDU_dropLeadUnd _ hmr)

theorem trimUnd_of_clean (l : List Char) (h1 : headIsUnd l = false)
    (h2 : headIsUnd l.reverse = false) : trimUnd l = l := by
  unfold trimUnd
  rw [dropLeadUnd_of_head l h1, dropLeadUnd_of_head _ h2, List.reverse_reverse]

theorem mem_trimUnd (l : List Char) (c : Char) (hc : c ∈ trimUnd l) : c ∈ l := by
  unfold trimUnd at hc
  rw [List.mem_reverse] at hc
  have := mem_dropLeadUnd _ _ hc
  rw [List.mem_reverse] at this
  exact mem_dropLeadUnd _ _ this

theorem length_trimUnd (l : List Char) : (trimUnd l).length ≤ l.length := by
  unfold trimUnd
  rw [List.length_reverse]
  calc (dropLeadUnd ((dropLeadUnd l).reverse)).length
      ≤ (dropLeadUnd l).reverse.length := length_dropLeadUnd _
    _ = (dropLeadUnd l).length := List.length_reverse _
    _ ≤ l.length := length_dropLeadUnd _

theorem length_collapseWs (l : List Char) : (collapseWs l).length ≤ l.length := by
  induction l with
  | nil => exact le_refl _
  | cons c cs ih =>
    simp only [collapseWs]
    by_cases h1 : (isJsWs c && headIsWs cs) = true
    · rw [if_pos h1]
      exact le_trans ih (by simp)
    · rw [if_neg h1]
      simpa using Nat.succ_le_succ ih

theorem length_collapseUnd (l : List Char) : (collapseUnd l).length ≤ l.length := by
  induction l with
  | nil => exact le_refl _
  | cons c cs ih =>
    simp only [collapseUnd]
    by_cases h1 : (c = '_' && headIsUnd cs) = true
    · rw [if_pos h1]
      exact le_trans ih (by simp)
    · rw [if_neg h1]
      simpa using Nat.succ_le_succ ih

/-! ### Idempotency of the sanitizer on its own output -/

theorem noFb_sanitizeCore (l : List Char) : NoFb (sanitizeCore l) := by
  intro c hc
  have h1 := mem_collapseUnd _ _ (mem_trimUnd _ _ hc)
  exact noFb_collapseWs _ (noFb_replaceForbidden l) c h1

theorem noWs_sanitizeCore (l : List Char) : NoWs (sanitizeCore l) := by
  intro c hc
  have h1 := mem_collapseUnd _ _ (mem_trimUnd _ _ hc)
  exact noWs_collapseWs _ c h1

theorem noDU_sanitizeCore (l : List Char) : NoDU (sanitizeCore l) :=
  (trimUnd_clean _ (noDU_collapseUnd _)).2.2

theorem head_sanitizeCore (l : List Char) : headIsUnd (sanitizeCore l) = false :=
  (trimUnd_clean _ (noDU_collapseUnd _)).1

theorem last_sanitizeCore (l : List Char) :
    headIsUnd (sanitizeCore l).reverse = false :=
  (trimUnd_clean _ (noDU_collapseUnd _)).2.1

theorem length_sanitizeCore (l : List Char) :
    (sanitizeCore l).length ≤ l.length := by
  unfold sanitizeCore
  calc (trimUnd (collapseUnd (collapseWs (replaceForbidden l)))).length
      ≤ (collapseUnd (collapseWs (replaceForbidden l))).length := length_trimUnd _
    _ ≤ (collapseWs (replaceForbidden l)).length := length_collapseUnd _
    _ ≤ (replaceForbidden l).length := length_collapseWs _
    _ = l.length := (List.length_map _ _)

theorem sanitizeCore_of_clean (l : List Char) (h1 : NoFb l) (h2 : NoWs l)
    (h3 : NoDU l) (h4 : headIsUnd l = false) (h5 : headIsUnd l.reverse = false) :
    sanitizeCore l = l := by
  unfold sanitizeCore
  rw [replaceForbidden_of_noFb l h1, collapseWs_of_noWs l h2,
    collapseUnd_of_noDU l h3, trimUnd_of_clean l h4 h5]

theorem sanitizeCore_idem (l : List Char) :
    sanitizeCore (sanitizeCore l) = sanitizeCore l :=
  sanitizeCore_of_clean _ (noFb_sanitizeCore l) (noWs_sanitizeCore l)
    (noDU_sanitizeCore l) (head_sanitizeCore l) (last_sanitizeCore l)

/-- C3 (amended): the name sanitizer is idempotent on every string whose
length is at most 255 (then truncation is a no-op, so the output carries no
forbidden characters, no whitespace, no doubled underscore and no leading or
trailing underscore, and a second pass changes nothing).  For longer inputs
the final `substring(0,255)` can cut just after an underscore, which the
second pass then trims, so full idempotency fails (see the counterexample). -/
theorem c3_sanitize_idem_of_length_le (x : String) (h : x.length ≤ 255) :
    sanitizeFileName (sanitizeFileName x) = sanitizeFileName x := by
  have hdata : x.data.length ≤ 255 := h
  have hcore : (sanitizeCore x.data).length ≤ 255 :=
    le_trans (length_sanitizeCore _) hdata
  have htake : (sanitizeCore x.data).take 255 = sanitizeCore x.data :=
    List.take_of_length_le hcore
  unfold sanitizeFileName
  rw [htake]
  show String.mk ((sanitizeCore (sanitizeCore x.data)).take 255) =
    String.mk (sanitizeCore x.data)
  rw [sanitizeCore_idem, htake]

/-- Witness for C3's amended theorem at the concrete input "a b". -/
theorem c3_sanitize_idem_witness : ("a b" : String).length ≤ 255 ∧
    sanitizeFileName (sanitizeFileName "a b") = sanitizeFileName "a b" :=
  ⟨by decide, c3_sanitize_idem_of_length_le "a b" (by decide)⟩

/-- A 256-character raw name: 254 `a`s, a space, and one more `a`.  After the
regex stages it is 254 `a`s followed by `_a` (256 characters); truncation to
255 leaves a trailing underscore, which a second sanitization pass removes. -/
def longRawName : String := String.mk (List.replicate 254 'a' ++ [' ', 'a'])

set_option maxRecDepth 100000 in
/-- C3 counterexample: `sanitize` is not idempotent on `longRawName`;
`sanitize(x)` ends in `_` (255 chars) but `sanitize(sanitize(x))` is the
254-character string of `a`s. -/
theorem c3_sanitize_not_idem_at_256 :
    ¬ (sanitizeFileName (sanitizeFileName longRawName) =
       sanitizeFileName longRawName) := by decide

/-! ### JS string primitives used by getFileExtension -/

/-- JS `String.prototype.trim` (drops JS whitespace at both ends). -/
def jsTrim (s : String) : String :=
  String.mk (((s.data.dropWhile isJsWs).reverse.dropWhile isJsWs).reverse)

/-- Substring occurrence on character lists (JS `String.prototype.includes`). -/
def hasInfix : List Char → List Char → Bool
  | [], sub => sub.isEmpty
  | l@(_ :: t), sub => sub.isPrefixOf l || hasInfix t sub

/-- JS `value.includes(sub)`. -/
def strIncludes (s sub : String) : Bool := hasInfix s.data sub.data

/-- JS `value.startsWith(c)` for a one-character pattern. -/
def strStartsWith (s : String) (c : Char) : Bool :=
  match s.data with
  | [] => false
  | d :: _ => d = c

/-- JS `value.endsWith(c)` for a one-character pattern. -/
def strEndsWith (s : String) (c : Char) : Bool :=
  match s.data.getLast? with
  | some d => d = c
  | none => false

example : strIncludes "abcdef" "cde" = true := by decide
example : strIncludes "abcdef" "cdf" = false := by decide
example : strIncludes "abc" "" = true := by decide
example : strStartsWith (jsTrim "  <div> ") '<' = true := by decide

/-! ### A model of the JS builtin JSON.parse

Modelled from the spec: `getFileExtension` calls the platform builtin
`JSON.parse`, which is not repository code; it is represented here by an
executable ECMA-404 validity checker.  `jsonParses s = true` iff
`JSON.parse(s)` succeeds. -/

/-- JSON-text whitespace: space, tab, line feed, carriage return. -/
def jsonWsChar (c : Char) : Bool := c = ' ' || c = '\t' || c = '\n' || c = '\r'

/-- Skip JSON whitespace. -/
def skipJsonWs (l : List Char) : List Char := l.dropWhile jsonWsChar

/-- Hexadecimal digit. -/
def isHexDigit (c : Char) : Bool :=
  c.isDigit || ('a' ≤ c && c ≤ 'f') || ('A' ≤ c && c ≤ 'F')

/-- Consume the remainder of a JSON string literal after the opening quote,
returning the unconsumed input. -/
def pStringRest : List Char → Option (List Char)
  | [] => none
  | '"' :: rest => some rest
  | '\\' :: 'u' :: a :: b :: c :: d :: rest =>
    if isHexDigit a && isHexDigit b && isHexDigit c && isHexDigit d then
      pStringRest rest
    else none
  | '\\' :: e :: rest =>
    if e = '"' || e = '\\' || e = '/' || e = 'b' || e = 'f' || e = 'n' ||
       e = 'r' || e = 't' then pStringRest rest
    else none
  | c :: rest => if 0x20 ≤ c.val then pStringRest rest else none

/-- Consume one or more decimal digits. -/
def pDigits : List Char → Option (List Char)
  | [] => none
  | c :: rest =>
    if c.isDigit then some (rest.dropWhile Char.isDigit) else none

/-- Consume an optional exponent part. -/
def pExpPart (l : List Char) : Option (List Char) :=
  match l with
  | e :: rest =>
    if e = 'e' || e = 'E' then
      match rest with
      | s :: rest2 => if s = '+' || s = '-' then pDigits rest2 else pDigits rest
      | [] => none
    else some l
  | [] => some l

/-- Consume an optional fraction part. -/
def pFracPart (l : List Char) : Option (List Char) :=
  match l with
  | '.' :: rest => pDigits rest
  | _ => some l

/-- Consume a JSON number. -/
def pNumber (l : List Char) : Option (List Char) :=
  let l1 := match l with
    | '-' :: r => r
    | _ => l
  match l1 with
  | '0' :: r => (pFracPart r).bind pExpPart
  | c :: r =>
    if c.isDigit then (pFracPart (r.dropWhile Char.isDigit)).bind pExpPart
    else none
  | [] => none

/-- Consume a fixed literal. -/
def pLit (lit : List Char) (l : List Char) : Option (List Char) :=
  if lit.isPrefixOf l then some (l.drop lit.length) else none

mutual
/-- Consume one JSON value (leading whitespace already skipped).  The fuel
argument bounds the nesting depth. -/
def pValue : Nat → List Char → Option (List Char)
  | 0, _ => none
  | f + 1, l =>
    match l with
    | '{' :: rest =>
      match skipJsonWs rest with
      | '}' :: r2 => some r2
      | r => pMembers f r
    | '[' :: rest =>
      match skipJsonWs rest with
      | ']' :: r2 => some r2
      | r => pElements f r
    | '"' :: rest => pStringRest rest
    | 't' :: rest => pLit ['r', 'u', 'e'] rest
    | 'f' :: rest => pLit ['a', 'l', 's', 'e'] rest
    | 'n' :: rest => pLit ['u', 'l', 'l'] rest
    | _ => pNumber l
/-- Consume the members of a non-empty JSON object, including the closing
brace. -/
def pMembers : Nat → List Char → Option (List Char)
  | 0, _ => none
  | f + 1, l =>
    match l with
    | '"' :: rest =>
      match pStringRest rest with
      | none => none
      | some r1 =>
        match skipJsonWs r1 with
        | ':' :: r2 =>
          match pValue f (skipJsonWs r2) with
          | none => none
          | some r3 =>
            match skipJsonWs r3 with
            | ',' :: r4 => pMembers f (skipJsonWs r4)
            | '}' :: r4 => some r4
            | _ => none
        | _ => none
    | _ => none
/-- Consume the elements of a non-empty JSON array, including the closing
bracket. -/
def pElements : Nat → List Char → Option (List Char)
  | 0, _ => none
  | f + 1, l =>
    match pValue f l with
    | none => none
    | some r1 =>
      match skipJsonWs r1 with
      | ',' :: r2 => pElements f (skipJsonWs r2)
      | ']' :: r2 => some r2
      | _ => none
end

/-- Whether `JSON.parse` accepts the string: a whitespace-padded single JSON
value consuming the whole input.  The fuel `length + 1` dominates the nesting
depth because each nesting level consumes at least one character. -/
def jsonParses (s : String) : Bool :=
  match pValue (s.data.length + 1) (skipJsonWs s.data) with
  | some rest => (skipJsonWs rest).isEmpty
  | none => false

example : jsonParses "\x7b\x7d" = true := by decide
example : jsonParses " \x7b\"a\": [1, 2.5e-3, null], \"b\": \"x\"\x7d " = true := by decide
example : jsonParses "[1, 2]" = true := by decide
example : jsonParses "null" = true := by decide
example : jsonParses "-12.5e3" = true := by decide
example : jsonParses "01" = false := by decide
example : jsonParses "# title" = false := by decide
example : jsonParses "hello" = false := by decide
example : jsonParses "\"hi\"" = true := by decide
example : jsonParses "[1, 2" = false := by decide
example : jsonParses "" = false := by decide

/-! ### The JSON data model -/

mutual
/-- Closed tagged variant of a JSON value (spec section 3).  Numbers are
carried as integers: no claim under consideration depends on non-integer
numerals or on JS floating-point formatting. -/
inductive Json where
  | null
  | bool (b : Bool)
  | num (n : Int)
  | str (s : String)
  | arr (items : JList)
  | obj (fields : JFields)
deriving DecidableEq
/-- Ordered sequence of array elements. -/
inductive JList where
  | nil
  | cons (head : Json) (tail : JList)
deriving DecidableEq
/-- Ordered association of object fields (insertion order preserved). -/
inductive JFields where
  | nil
  | cons (key : String) (value : Json) (tail : JFields)
deriving DecidableEq
end

/-- Number of elements (JS `data.length` for an array literal). -/
def JList.length : JList → Nat
  | .nil => 0
  | .cons _ t => t.length + 1

/-- Number of keys (JS `Object.keys(data).length`). -/
def JFields.length : JFields → Nat
  | .nil => 0
  | .cons _ _ t => t.length + 1

/-- JS `typeof v === 'object' && v !== null` (true exactly on arrays and
objects; `typeof null` is `'object'` but the null check excludes it). -/
def Json.isObjectLike : Json → Bool
  | .arr _ => true
  | .obj _ => true
  | _ => false

/-- JS `Array.isArray`. -/
def Json.isArr : Json → Bool
  | .arr _ => true
  | _ => false

/-! ### getFileExtension  (src/unnamed/part_003 lines 181-213)

The classifier is parametrized by the `JSON.parse` success oracle
`p : String → Bool`; instantiating `p := jsonParses` gives the concrete
behaviour. -/

/-- The extension classifier: strings go through the heuristic cascade
(`JSON.parse` success, HTML shape, CSS shape, JS keywords, else `.txt`);
numbers and booleans yield `.txt`; everything else yields `.json`. -/
def getFileExtension (p : String → Bool) : Json → String
  | .str value =>
    if p value then ".json"
    else if strStartsWith (jsTrim value) '<' && strEndsWith (jsTrim value) '>' then
      ".html"
    else if strIncludes value "\x7b" && strIncludes value "\x7d" &&
        strIncludes value ":" then ".css"
    else if strIncludes value "function" || strIncludes value "=>" ||
        strIncludes value "var " || strIncludes value "const " then ".js"
    else ".txt"
  | .num _ => ".txt"
  | .bool _ => ".txt"
  | _ => ".json"

/-- The string cascade exactly as the source writes it, re-expressed as an
ordered list of (predicate, extension) rules; order is data and the first
matching rule wins. -/
def extensionRules (p : String → Bool) : List ((String → Bool) × String) :=
  [(fun v => p v, ".json"),
   (fun v => strStartsWith (jsTrim v) '<' && strEndsWith (jsTrim v) '>', ".html"),
   (fun v => strIncludes v "\x7b" && strIncludes v "\x7d" && strIncludes v ":", ".css"),
   (fun v => strIncludes v "function" || strIncludes v "=>" ||
     strIncludes v "var " || strIncludes v "const ", ".js")]

/-- First-match-wins evaluation of an ordered rule list. -/
def firstMatch : List ((String → Bool) × String) → String → String → String
  | [], dflt, _ => dflt
  | (q, ext) :: rules, dflt, v => if q v then ext else firstMatch rules dflt v

/-- The cascade exactly as claim C1 words it: the same first three rules, a
`.js` rule that additionally checks `let ` and `import `, then a `.md` rule
for `#` or `**`, else `.txt`.  Used only to exhibit where the claim and the
source disagree. -/
def claimC1Cascade (p : String → Bool) (value : String) : String :=
  if p value then ".json"
  else if strStartsWith (jsTrim value) '<' && strEndsWith (jsTrim value) '>' then
    ".html"
  else if strIncludes value "\x7b" && strIncludes value "\x7d" &&
      strIncludes value ":" then ".css"
  else if strIncludes value "function" || strIncludes value "=>" ||
      strIncludes value "const " || strIncludes value "let " ||
      strIncludes value "var " || strIncludes value "import " then ".js"
  else if strIncludes value "#" || strIncludes value "**" then ".md"
  else ".txt"

/-- C1 counterexample: on the string "# title" the source classifier returns
`.txt` (it has no `.md` rule at all), while the cascade stated by the claim
returns `.md`. -/
theorem c1_cascade_disagrees_on_hash_title :
    getFileExtension jsonParses (Json.str "# title") = ".txt" ∧
    claimC1Cascade jsonParses "# title" = ".md" ∧
    (".txt" : String) ≠ ".md" := by
  refine ⟨by decide, by decide, by decide⟩

/-- C1 (amended): for every parse oracle and every string, the classifier
equals first-match-wins evaluation of the ordered four-rule cascade
(JSON → `.json`; trimmed `<...>` → `.html`; braces and colon → `.css`;
`function`/`=>`/`var `/`const ` → `.js`) with default `.txt`; the source has
no `let `, `import ` or `.md`/`#`/`**` checks. -/
theorem c1_string_cascade_first_match (p : String → Bool) (s : String) :
    getFileExtension p (Json.str s) = firstMatch (extensionRules p) ".txt" s := by
  simp only [getFileExtension, extensionRules, firstMatch]

/-- C2 counterexample: the classifier maps the Number scalar 5 to `.txt`,
not `.json`. -/
theorem c2_number_yields_txt_not_json :
    getFileExtension jsonParses (Json.num 5) = ".txt" ∧
    (".txt" : String) ≠ ".json" := by
  refine ⟨by decide, by decide⟩

/-- C2 (amended): the classifier takes no default-extension configuration;
for every parse oracle it returns `.txt` for every Number and every Boolean,
and `.json` for Null (and for arrays and objects, the catch-all branch). -/
theorem c2_nonstring_scalar_extensions (p : String → Bool) :
    (∀ n : Int, getFileExtension p (Json.num n) = ".txt") ∧
    (∀ b : Bool, getFileExtension p (Json.bool b) = ".txt") ∧
    getFileExtension p Json.null = ".json" :=
  ⟨fun _ => rfl, fun _ => rfl, rfl⟩

/-! ### Models of JS value-to-string conversions -/

/-- Hex digit character for string escapes. -/
def hexDigitChar (n : Nat) : Char :=
  if n < 10 then Char.ofNat (48 + n) else Char.ofNat (87 + n)

/-- JSON escaping of one character (as performed by `JSON.stringify`). -/
def quoteJsonChar (c : Char) : List Char :=
  if c = '"' then ['\\', '"']
  else if c = '\\' then ['\\', '\\']
  else if c = '\n' then ['\\', 'n']
  else if c = '\r' then ['\\', 'r']
  else if c = '\t' then ['\\', 't']
  else if c.val = 8 then ['\\', 'b']
  else if c.val = 12 then ['\\', 'f']
  else if c.val < 0x20 then
    ['\\', 'u', '0', '0', hexDigitChar (c.val.toNat / 16), hexDigitChar (c.val.toNat % 16)]
  else [c]

/-- A JSON string literal for `s`, quotes included. -/
def quoteJsonString (s : String) : String :=
  "\"" ++ String.mk (s.data.map quoteJsonChar).flatten ++ "\""

mutual
/-- Compact `JSON.stringify(v)` (no indentation). -/
def jsStringify : Json → String
  | .null => "null"
  | .bool b => if b then "true" else "false"
  | .num n => toString n
  | .str s => quoteJsonString s
  | .arr .nil => "[]"
  | .arr (.cons h t) => "[" ++ jsStringify h ++ jsStringifyItems t ++ "]"
  | .obj .nil => "\x7b\x7d"
  | .obj (.cons k v t) =>
    "\x7b" ++ quoteJsonString k ++ ":" ++ jsStringify v ++ jsStringifyFields t ++ "\x7d"
/-- Remaining array elements of compact stringification. -/
def jsStringifyItems : JList → String
  | .nil => ""
  | .cons h t => "," ++ jsStringify h ++ jsStringifyItems t
/-- Remaining object fields of compact stringification. -/
def jsStringifyFields : JFields → String
  | .nil => ""
  | .cons k v t => "," ++ quoteJsonString k ++ ":" ++ jsStringify v ++ jsStringifyFields t
end

/-- Indentation string of `2 * k` spaces. -/
def indentSp (k : Nat) : String := String.mk (List.replicate (2 * k) ' ')

mutual
/-- `JSON.stringify(v, null, 2)` at nesting level `k`. -/
def prettyStringify : Json → Nat → String
  | .null, _ => "null"
  | .bool b, _ => if b then "true" else "false"
  | .num n, _ => toString n
  | .str s, _ => quoteJsonString s
  | .arr .nil, _ => "[]"
  | .arr (.cons h t), k =>
    "[\n" ++ indentSp (k + 1) ++ prettyStringify h (k + 1) ++ prettyItems t (k + 1) ++
      "\n" ++ indentSp k ++ "]"
  | .obj .nil, _ => "\x7b\x7d"
  | .obj (.cons key v t), k =>
    "\x7b\n" ++ indentSp (k + 1) ++ quoteJsonString key ++ ": " ++
      prettyStringify v (k + 1) ++ prettyFields t (k + 1) ++ "\n" ++ indentSp k ++ "\x7d"
/-- Remaining array elements of indented stringification. -/
def prettyItems : JList → Nat → String
  | .nil, _ => ""
  | .cons h t, k => ",\n" ++ indentSp k ++ prettyStringify h k ++ prettyItems t k
/-- Remaining object fields of indented stringification. -/
def prettyFields : JFields → Nat → String
  | .nil, _ => ""
  | .cons key v t, k =>
    ",\n" ++ indentSp k ++ quoteJsonString key ++ ": " ++ prettyStringify v k ++
      prettyFields t k
end

/-- `JSON.stringify(v, null, 2)`. -/
def jsonStringifyPretty (v : Json) : String := prettyStringify v 0

example : jsonStringifyPretty (Json.num 1) = "1" := by decide
example : jsonStringifyPretty (Json.obj .nil) = "\x7b\x7d" := by decide
example : jsonStringifyPretty Json.null = "null" := by decide
example : jsonStringifyPretty
    (Json.obj (.cons "a" (.num 1) .nil)) = "\x7b\n  \"a\": 1\n\x7d" := by decide

mutual
/-- JS `String(v)` conversion. -/
def jsString : Json → String
  | .null => "null"
  | .bool b => if b then "true" else "false"
  | .num n => toString n
  | .str s => s
  | .arr l => jsStringItems l
  | .obj _ => "[object Object]"
/-- JS array-to-string: elements joined with commas, with null elements
rendered as the empty string. -/
def jsStringItems : JList → String
  | .nil => ""
  | .cons .null .nil => ""
  | .cons h .nil => jsString h
  | .cons .null t => "," ++ jsStringItems t
  | .cons h t => jsString h ++ "," ++ jsStringItems t
end

example : jsString (Json.arr (.cons (Json.num 1)
    (.cons Json.null (.cons (Json.str "x") .nil)))) = "1,,x" := by decide

/-! ### analyzeJsonStructure  (src/lib/zipGenerator.js lines 202-233) -/

/-- The statistics record built by `analyzeJsonStructure`. -/
structure JStats where
  objectCount : Nat
  arrayCount : Nat
  fileCount : Nat
  maxDepth : Nat
deriving DecidableEq

mutual
/-- `analyzeJsonStructure(data, depth)`: arrays count themselves in
`arrayCount` and fold their elements' statistics in; objects likewise in
`objectCount`; every other value is a leaf counted in `fileCount`;
`maxDepth` starts at the current depth and takes the maximum over
children. -/
def analyzeJsonStructure : Json → Nat → JStats
  | .arr items, depth => analyzeItems items (depth + 1) ⟨0, 1, 0, depth⟩
  | .obj fields, depth => analyzeFields fields (depth + 1) ⟨1, 0, 0, depth⟩
  | _, depth => ⟨0, 0, 1, depth⟩
/-- Fold of element statistics for arrays. -/
def analyzeItems : JList → Nat → JStats → JStats
  | .nil, _, acc => acc
  | .cons x xs, depth, acc =>
    let sub := analyzeJsonStructure x depth
    analyzeItems xs depth
      ⟨acc.objectCount + sub.objectCount, acc.arrayCount + sub.arrayCount,
       acc.fileCount + sub.fileCount, max acc.maxDepth sub.maxDepth⟩
/-- Fold of value statistics for objects. -/
def analyzeFields : JFields → Nat → JStats → JStats
  | .nil, _, acc => acc
  | .cons _ v fs, depth, acc =>
    let sub := analyzeJsonStructure v depth
    analyzeFields fs depth
      ⟨acc.objectCount + sub.objectCount, acc.arrayCount + sub.arrayCount,
       acc.fileCount + sub.fileCount, max acc.maxDepth sub.maxDepth⟩
end

mutual
/-- Scalar-leaf count of a JSON value (the specification's reading of
`fileCount`). -/
def leafCount : Json → Nat
  | .arr l => leafCountItems l
  | .obj fs => leafCountFields fs
  | _ => 1
/-- Scalar-leaf count of array elements. -/
def leafCountItems : JList → Nat
  | .nil => 0
  | .cons x xs => leafCount x + leafCountItems xs
/-- Scalar-leaf count of object values. -/
def leafCountFields : JFields → Nat
  | .nil => 0
  | .cons _ v fs => leafCount v + leafCountFields fs
end

mutual
/-- Number of empty objects and empty arrays occurring anywhere in the
value. -/
def emptyCount : Json → Nat
  | .arr .nil => 1
  | .arr l => emptyCountItems l
  | .obj .nil => 1
  | .obj fs => emptyCountFields fs
  | _ => 0
/-- Empty-container count over array elements. -/
def emptyCountItems : JList → Nat
  | .nil => 0
  | .cons x xs => emptyCount x + emptyCountItems xs
/-- Empty-container count over object values. -/
def emptyCountFields : JFields → Nat
  | .nil => 0
  | .cons _ v fs => emptyCount v + emptyCountFields fs
end

mutual
theorem analyze_fileCount : ∀ (v : Json) (d : Nat),
    (analyzeJsonStructure v d).fileCount = leafCount v
  | .null, _ => rfl
  | .bool _, _ => rfl
  | .num _, _ => rfl
  | .str _, _ => rfl
  | .arr l, d => by
    simp only [analyzeJsonStructure, leafCount]
    rw [analyzeItems_fileCount l (d + 1) ⟨0, 1, 0, d⟩]
    show 0 + leafCountItems l = leafCountItems l
    exact Nat.zero_add _
  | .obj fs, d => by
    simp only [analyzeJsonStructure, leafCount]
    rw [analyzeFields_fileCount fs (d + 1) ⟨1, 0, 0, d⟩]
    show 0 + leafCountFields fs = leafCountFields fs
    exact Nat.zero_add _
theorem analyzeItems_fileCount : ∀ (l : JList) (d : Nat) (acc : JStats),
    (analyzeItems l d acc).fileCount = acc.fileCount + leafCountItems l
  | .nil, _, acc => by simp [analyzeItems, leafCountItems]
  | .cons x xs, d, acc => by
    simp only [analyzeItems, leafCountItems]
    rw [analyzeItems_fileCount xs d _, analyze_fileCount x d]
    show acc.fileCount + leafCount x + leafCountItems xs =
      acc.fileCount + (leafCount x + leafCountItems xs)
    omega
theorem analyzeFields_fileCount : ∀ (fs : JFields) (d : Nat) (acc : JStats),
    (analyzeFields fs d acc).fileCount = acc.fileCount + leafCountFields fs
  | .nil, _, acc => by simp [analyzeFields, leafCountFields]
  | .cons _ v fs, d, acc => by
    simp only [analyzeFields, leafCountFields]
    rw [analyzeFields_fileCount fs d _, analyze_fileCount v d]
    show acc.fileCount + leafCount v + leafCountFields fs =
      acc.fileCount + (leafCount v + leafCountFields fs)
    omega
end

/-! ### processJsonNode and generateZipFromJson  (src/lib/zipGenerator.js) -/

/-- One effect on the JSZip object: a file write (path segments up to the
file name, plus the content string) or a folder creation. -/
inductive ZipWrite where
  | file (path : List String) (content : String)
  | dir (path : List String)
deriving DecidableEq

/-- Re-roots a write inside a subfolder, as `folder.folder(name)` does for
everything subsequently written through the returned handle. -/
def ZipWrite.inFolder (name : String) : ZipWrite → ZipWrite
  | .file p c => .file (name :: p) c
  | .dir p => .dir (name :: p)

/-- The configuration record assembled at src/lib/zipGenerator.js lines
15-21 (defaults overridden by the caller's options). -/
structure ZipConfig where
  includeMetadata : Bool
  fileExtension : String
  createReadme : Bool
  timestampFiles : Bool
deriving DecidableEq

/-- The defaults: metadata and README on, `.json`, no timestamping. -/
def defaultZipConfig : ZipConfig := ⟨true, ".json", true, false⟩

/-- JS `String.prototype.padStart(n, c)` for a one-character pad. -/
def jsPadStart (s : String) (n : Nat) (c : Char) : String :=
  if n ≤ s.length then s
  else String.mk (List.replicate (n - s.length) c) ++ s

/-- Array child base name in src/lib/zipGenerator.js (lines 74-75 and 259):
`item_` followed by the index zero-padded to width 3. -/
def libItemName (i : Nat) : String := "item_" ++ jsPadStart (Nat.repr i) 3 '0'

/-- JS `String.prototype.replace` with a plain-string pattern: replaces the
first occurrence only (an empty pattern matches at position 0). -/
def replaceFirstL : List Char → List Char → List Char → List Char
  | [], pat, repl => if pat.isEmpty then repl else []
  | l@(c :: cs), pat, repl =>
    if pat.isPrefixOf l then repl ++ l.drop pat.length
    else c :: replaceFirstL cs pat repl

/-- String wrapper around `replaceFirstL`. -/
def strReplaceFirst (s pat repl : String) : String :=
  String.mk (replaceFirstL s.data pat.data repl.data)

example : strReplaceFirst "a.json" ".json" "_T.json" = "a_T.json" := by decide
example : strReplaceFirst "abc" "zz" "x" = "abc" := by decide

/-- `new Date().toISOString().replace(/[:.]/g, '-')` applied to the
timestamp string. -/
def tsSanitize (now : String) : String :=
  String.mk (now.data.map (fun c => if c = ':' || c = '.' then '-' else c))

/-- Number of keys of an object value (`Object.keys(value).length`; the
call sites guard so that it is only consulted on objects). -/
def Json.objSize : Json → Nat
  | .obj fs => fs.length
  | _ => 0

mutual
/-- `processJsonNode(folder, data, path, config)` from src/lib/zipGenerator.js
lines 60-126, as the list of writes it performs relative to `folder`:
null data becomes the file `null{ext}` with content `null`; an empty array
the placeholder `empty_array.json`; a non-empty array one entry per element
(subfolder `item_NNN` for object-like elements, else a file); an empty
object the placeholder `empty_object.json`; a non-empty object one entry per
key (subfolder for arrays and non-empty objects, a plain `{key}{ext}` file
with content `\x7b\x7d` for empty-object values, else a file, timestamped if
configured); any other scalar the file `value{ext}`. -/
def processJsonNode (cfg : ZipConfig) (now : String) : Json → List ZipWrite
  | .null => [.file [sanitizeFileName ("null" ++ cfg.fileExtension)] "null"]
  | .arr .nil => [.file ["empty_array.json"] "[]"]
  | .arr (.cons x xs) => processArrayItems cfg now (.cons x xs) 0
  | .obj .nil => [.file ["empty_object.json"] "\x7b\x7d"]
  | .obj (.cons k v fs) => processObjectFields cfg now (.cons k v fs)
  | v => [.file [sanitizeFileName ("value" ++ cfg.fileExtension)]
      (match v with
       | .str s => s
       | w => jsonStringifyPretty w)]
/-- The loop over array elements (src/lib/zipGenerator.js lines 74-85),
carrying the element index. -/
def processArrayItems (cfg : ZipConfig) (now : String) : JList → Nat → List ZipWrite
  | .nil, _ => []
  | .cons x xs, i =>
    (if x.isObjectLike then
      ZipWrite.dir [libItemName i] ::
        (processJsonNode cfg now x).map (ZipWrite.inFolder (libItemName i))
    else
      [ZipWrite.file [sanitizeFileName (libItemName i ++ cfg.fileExtension)]
        (match x with
         | .str s => s
         | w => jsonStringifyPretty w)])
    ++ processArrayItems cfg now xs (i + 1)
/-- The loop over object keys (src/lib/zipGenerator.js lines 95-119). -/
def processObjectFields (cfg : ZipConfig) (now : String) : JFields → List ZipWrite
  | .nil => []
  | .cons key v fs =>
    (let sanitizedKey := sanitizeFileName key
     if v.isObjectLike then
       if v.isArr || 0 < v.objSize then
         ZipWrite.dir [sanitizedKey] ::
           (processJsonNode cfg now v).map (ZipWrite.inFolder sanitizedKey)
       else
         [ZipWrite.file [sanitizeFileName (sanitizedKey ++ cfg.fileExtension)]
           (jsonStringifyPretty v)]
     else
       let fileName := sanitizeFileName (sanitizedKey ++ cfg.fileExtension)
       let content := match v with
         | .str s => s
         | w => jsonStringifyPretty w
       if cfg.timestampFiles then
         [ZipWrite.file [strReplaceFirst fileName cfg.fileExtension
             ("_" ++ tsSanitize now ++ cfg.fileExtension)] content]
       else [ZipWrite.file [fileName] content])
    ++ processObjectFields cfg now fs
end

/-- `generateReadmeContent(jsonData, rootName)` from src/lib/zipGenerator.js
lines 148-176 (the `new Date().toISOString()` timestamp is the `now`
parameter). -/
def generateReadmeContent (now : String) (jsonData : Json) (rootName : String) : String :=
  let stats := analyzeJsonStructure jsonData 0
  "# " ++ rootName ++ "\n\nGenerated from JSON structure on " ++ now ++
  "\n\n## Structure Overview\n- **Total Objects**: " ++ Nat.repr stats.objectCount ++
  "\n- **Total Arrays**: " ++ Nat.repr stats.arrayCount ++
  "\n- **Total Files**: " ++ Nat.repr stats.fileCount ++
  "\n- **Max Depth**: " ++ Nat.repr stats.maxDepth ++
  "\n\n## File Organization\nThis ZIP contains a hierarchical representation of the original JSON structure:\n- Objects become folders\n- Arrays become numbered item folders\n- Primitive values become individual files\n- Empty objects/arrays are preserved as special files\n\n## Notes\n- File names have been sanitized for filesystem compatibility\n- Complex nested structures maintain their original hierarchy\n- Metadata is preserved in _metadata.json\n\nGenerated by JSON to ZIP Converter\n"

/-- The statistics record as the JSON object that `JSON.stringify` sees. -/
def statsToJson (st : JStats) : Json :=
  Json.obj (.cons "objectCount" (.num st.objectCount)
    (.cons "arrayCount" (.num st.arrayCount)
      (.cons "fileCount" (.num st.fileCount)
        (.cons "maxDepth" (.num st.maxDepth) .nil))))

/-- `generateMetadata(jsonData, rootName)` from src/lib/zipGenerator.js lines
184-194, as the JSON object it returns. -/
def generateMetadata (now : String) (jsonData : Json) (rootName : String) : Json :=
  Json.obj (.cons "generatedAt" (.str now)
    (.cons "rootName" (.str rootName)
      (.cons "originalSize" (.num (jsStringify jsonData).length)
        (.cons "statistics" (statsToJson (analyzeJsonStructure jsonData 0))
          (.cons "version" (.str "1.0.0") .nil)))))

/-- `generateZipFromJson(jsonData, rootName, options)` from
src/lib/zipGenerator.js lines 13-51, as the list of writes made to the zip:
the root folder is created, the JSON structure is processed into it, then a
README and a metadata file are appended when configured. -/
def generateZipFromJson (now : String) (jsonData : Json) (rootName : String)
    (cfg : ZipConfig) : List ZipWrite :=
  ZipWrite.dir [rootName] ::
    ((processJsonNode cfg now jsonData).map (ZipWrite.inFolder rootName) ++
     (if cfg.createReadme then
       [ZipWrite.file [rootName, "README.md"]
         (generateReadmeContent now jsonData rootName)]
      else []) ++
     (if cfg.includeMetadata then
       [ZipWrite.file [rootName, "_metadata.json"]
         (jsonStringifyPretty (generateMetadata now jsonData rootName))]
      else []))

/-- Number of file writes (folder creations excluded). -/
def countFiles : List ZipWrite → Nat
  | [] => 0
  | .file _ _ :: ws => countFiles ws + 1
  | .dir _ :: ws => countFiles ws

/-- The paths of the file writes, in write order (with multiplicity). -/
def filePaths : List ZipWrite → List (List String)
  | [] => []
  | .file p _ :: ws => p :: filePaths ws
  | .dir _ :: ws => filePaths ws

example : filePaths (generateZipFromJson "T" Json.null "root" defaultZipConfig) =
    [["root", "null.json"], ["root", "README.md"], ["root", "_metadata.json"]] := by
  decide

example : processJsonNode defaultZipConfig "T"
      (Json.obj (.cons "a" (Json.obj .nil) .nil)) =
    [ZipWrite.file ["a.json"] "\x7b\x7d"] := by decide

theorem countFiles_append (l1 l2 : List ZipWrite) :
    countFiles (l1 ++ l2) = countFiles l1 + countFiles l2 := by
  induction l1 with
  | nil => simp [countFiles]
  | cons w ws ih =>
    cases w with
    | file p c => simp [countFiles, ih]; omega
    | dir p => simp [countFiles, ih]

theorem countFiles_map_inFolder (name : String) (ws : List ZipWrite) :
    countFiles (ws.map (ZipWrite.inFolder name)) = countFiles ws := by
  induction ws with
  | nil => rfl
  | cons w ws ih =>
    cases w with
    | file p c => simp [ZipWrite.inFolder, countFiles, ih]
    | dir p => simp [ZipWrite.inFolder, countFiles, ih]

/-- A value that is not object-like is a scalar leaf with no empty
containers. -/
theorem scalar_counts (v : Json) (h : v.isObjectLike = false) :
    leafCount v = 1 ∧ emptyCount v = 0 := by
  cases v with
  | null => exact ⟨rfl, rfl⟩
  | bool b => exact ⟨rfl, rfl⟩
  | num n => exact ⟨rfl, rfl⟩
  | str s => exact ⟨rfl, rfl⟩
  | arr l => simp [Json.isObjectLike] at h
  | obj fs => simp [Json.isObjectLike] at h

mutual
theorem countFiles_processJsonNode : ∀ (cfg : ZipConfig) (now : String) (v : Json),
    countFiles (processJsonNode cfg now v) = leafCount v + emptyCount v
  | _, _, .null => rfl
  | _, _, .bool _ => rfl
  | _, _, .num _ => rfl
  | _, _, .str _ => rfl
  | _, _, .arr .nil => rfl
  | cfg, now, .arr (.cons x xs) => by
    simp only [processJsonNode]
    rw [countFiles_processArrayItems cfg now (.cons x xs) 0]
    rfl
  | _, _, .obj .nil => rfl
  | cfg, now, .obj (.cons k v fs) => by
    simp only [processJsonNode]
    rw [countFiles_processObjectFields cfg now (.cons k v fs)]
    rfl
theorem countFiles_processArrayItems : ∀ (cfg : ZipConfig) (now : String)
    (l : JList) (i : Nat),
    countFiles (processArrayItems cfg now l i) =
      leafCountItems l + emptyCountItems l
  | _, _, .nil, _ => rfl
  | cfg, now, .cons x xs, i => by
    simp only [processArrayItems]
    rw [countFiles_append]
    rw [countFiles_processArrayItems cfg now xs (i + 1)]
    by_cases hx : x.isObjectLike = true
    · rw [if_pos hx]
      simp only [countFiles, countFiles_map_inFolder]
      rw [countFiles_processJsonNode cfg now x]
      show leafCount x + emptyCount x + (leafCountItems xs + emptyCountItems xs) =
        leafCountItems (.cons x xs) + emptyCountItems (.cons x xs)
      simp only [leafCountItems, emptyCountItems]
      omega
    · rw [if_neg hx]
      have hs := scalar_counts x (by simpa using hx)
      show countFiles [ZipWrite.file _ _] + (leafCountItems xs + emptyCountItems xs) =
        leafCountItems (.cons x xs) + emptyCountItems (.cons x xs)
      simp only [countFiles, leafCountItems, emptyCountItems]
      omega
theorem countFiles_processObjectFields : ∀ (cfg : ZipConfig) (now : String)
    (fs : JFields),
    countFiles (processObjectFields cfg now fs) =
      leafCountFields fs + emptyCountFields fs
  | _, _, .nil => rfl
  | cfg, now, .cons key v fs => by
    simp only [processObjectFields]
    rw [countFiles_append]
    rw [countFiles_processObjectFields cfg now fs]
    by_cases hv : v.isObjectLike = true
    · by_cases hrec : (v.isArr || 0 < v.objSize : Bool) = true
      · rw [if_pos hv, if_pos hrec]
        simp only [countFiles, countFiles_map_inFolder]
        rw [countFiles_processJsonNode cfg now v]
        show leafCount v + emptyCount v + (leafCountFields fs + emptyCountFields fs) =
          leafCountFields (.cons key v fs) + emptyCountFields (.cons key v fs)
        simp only [leafCountFields, emptyCountFields]
        omega
      · rw [if_pos hv, if_neg hrec]
        have hvo : v = Json.obj .nil := by
          cases v with
          | arr l => simp [Json.isArr] at hrec
          | obj gs =>
            cases gs with
            | nil => rfl
            | cons a b t => simp [Json.isArr, Json.objSize, JFields.length] at hrec
          | null => simp [Json.isObjectLike] at hv
          | bool b => simp [Json.isObjectLike] at hv
          | num n => simp [Json.isObjectLike] at hv
          | str s => simp [Json.isObjectLike] at hv
        subst hvo
        show countFiles [ZipWrite.file _ _] + (leafCountFields fs + emptyCountFields fs) =
          leafCountFields (.cons key (Json.obj .nil) fs) +
            emptyCountFields (.cons key (Json.obj .nil) fs)
        simp only [countFiles, leafCountFields, emptyCountFields, leafCount, emptyCount,
          leafCountFields, emptyCountFields]
        show 0 + 1 + (leafCountFields fs + emptyCountFields fs) =
          leafCountFields .nil + leafCountFields fs + (1 + emptyCountFields fs)
        simp only [leafCountFields]
        omega
    · rw [if_neg hv]
      have hs := scalar_counts v (by simpa using hv)
      by_cases ht : cfg.timestampFiles = true
      · rw [if_pos ht]
        show countFiles [ZipWrite.file _ _] + (leafCountFields fs + emptyCountFields fs) =
          leafCountFields (.cons key v fs) + emptyCountFields (.cons key v fs)
        simp only [countFiles, leafCountFields, emptyCountFields]
        omega
      · rw [if_neg ht]
        show countFiles [ZipWrite.file _ _] + (leafCountFields fs + emptyCountFields fs) =
          leafCountFields (.cons key v fs) + emptyCountFields (.cons key v fs)
        simp only [countFiles, leafCountFields, emptyCountFields]
        omega
end

/-- C7 (amended): counted with multiplicity (one per `zip.file(...)` call),
the file writes of the generated archive number exactly
`statistics.fileCount + (includeMetadata?1:0) + (createReadme?1:0)` plus one
for every empty object or empty array occurring in the value.  The number of
distinct archive entries can be smaller when two writes share a sanitized
path (last write wins), so the claim as stated fails on colliding keys. -/
theorem c7_file_write_count (now : String) (v : Json) (rootName : String)
    (cfg : ZipConfig) :
    countFiles (generateZipFromJson now v rootName cfg) =
      (analyzeJsonStructure v 0).fileCount +
        (if cfg.includeMetadata then 1 else 0) +
        (if cfg.createReadme then 1 else 0) + emptyCount v := by
  unfold generateZipFromJson
  simp only [countFiles]
  rw [countFiles_append, countFiles_append, countFiles_map_inFolder,
    countFiles_processJsonNode, analyze_fileCount]
  rcases cfg with ⟨im, ext, cr, ts⟩
  cases im <;> cases cr <;> simp [countFiles] <;> omega

/-- Two sibling keys that sanitize to the same name: `a b` and `a_b` both
become the file `a_b.json`. -/
def collidingInput : Json :=
  Json.obj (.cons "a b" (.num 1) (.cons "a_b" (.num 2) .nil))

/-- C7 counterexample: on `collidingInput` with default options the archive
holds 3 distinct file entries (`root/a_b.json` written twice, last write
wins, plus README and metadata), while the claimed formula gives
2 + 1 + 1 + 0 = 4. -/
theorem c7_collision_entry_count :
    (filePaths (generateZipFromJson "T" collidingInput "root"
      defaultZipConfig)).dedup.length = 3 ∧
    (analyzeJsonStructure collidingInput 0).fileCount + 1 + 1 +
      emptyCount collidingInput = 4 ∧
    (3 : Nat) ≠ 4 := by
  refine ⟨by decide, by decide, by decide⟩

/-! ### Folder non-emptiness and placeholder behaviour (claim C4) -/

/-- Every folder creation in the write list is covered by a file write
strictly below it. -/
def DirsCovered (ws : List ZipWrite) : Prop :=
  ∀ p, ZipWrite.dir p ∈ ws →
    ∃ q c, ZipWrite.file q c ∈ ws ∧ p <+: q ∧ p ≠ q

theorem dirsCovered_nil : DirsCovered [] := by
  intro p hp
  simp at hp

theorem dirsCovered_singleton_file (q : List String) (c : String) :
    DirsCovered [ZipWrite.file q c] := by
  intro p hp
  simp at hp

theorem dirsCovered_append (l1 l2 : List ZipWrite) (h1 : DirsCovered l1)
    (h2 : DirsCovered l2) : DirsCovered (l1 ++ l2) := by
  intro p hp
  rcases List.mem_append.mp hp with h | h
  · obtain ⟨q, c, hm, hpre, hne⟩ := h1 p h
    exact ⟨q, c, List.mem_append_left _ hm, hpre, hne⟩
  · obtain ⟨q, c, hm, hpre, hne⟩ := h2 p h
    exact ⟨q, c, List.mem_append_right _ hm, hpre, hne⟩

theorem dirsCovered_block (n : String) (sub : List ZipWrite)
    (hc : DirsCovered sub) (hf : ∃ q c, ZipWrite.file q c ∈ sub ∧ q ≠ []) :
    DirsCovered (ZipWrite.dir [n] :: sub.map (ZipWrite.inFolder n)) := by
  intro p hp
  rcases List.mem_cons.mp hp with h | h
  · obtain ⟨q, c, hm, hq⟩ := hf
    have hpn : p = [n] := ZipWrite.dir.inj h
    refine ⟨n :: q, c, ?_, ?_, ?_⟩
    · exact List.mem_cons_of_mem _
        (List.mem_map.mpr ⟨ZipWrite.file q c, hm, rfl⟩)
    · exact hpn ▸ ⟨q, rfl⟩
    · rw [hpn]
      cases q with
      | nil => exact absurd rfl hq
      | cons a as =>
        intro heq
        injection heq with h1 h2
        exact List.cons_ne_nil a as h2.symm
  · obtain ⟨w, hw, hwp⟩ := List.mem_map.mp h
    cases w with
    | file q c => simp [ZipWrite.inFolder] at hwp
    | dir p' =>
      have hpp : p = n :: p' := (ZipWrite.dir.inj hwp).symm
      obtain ⟨q, c, hm, hpre, hne⟩ := hc p' hw
      obtain ⟨t, ht⟩ := hpre
      refine ⟨n :: q, c, ?_, ?_, ?_⟩
      · exact List.mem_cons_of_mem _
          (List.mem_map.mpr ⟨ZipWrite.file q c, hm, rfl⟩)
      · exact ⟨t, by rw [hpp, List.cons_append, ht]⟩
      · rw [hpp]
        intro heq
        exact hne (List.cons.inj heq).2

mutual
theorem exists_file_pjn : ∀ (cfg : ZipConfig) (now : String) (v : Json),
    ∃ q c, ZipWrite.file q c ∈ processJsonNode cfg now v ∧ q ≠ []
  | cfg, now, .null =>
    ⟨[sanitizeFileName ("null" ++ cfg.fileExtension)], "null",
      by simp [processJsonNode], by simp⟩
  | cfg, now, .bool b =>
    ⟨[sanitizeFileName ("value" ++ cfg.fileExtension)],
      jsonStringifyPretty (.bool b), by simp [processJsonNode], by simp⟩
  | cfg, now, .num n =>
    ⟨[sanitizeFileName ("value" ++ cfg.fileExtension)],
      jsonStringifyPretty (.num n), by simp [processJsonNode], by simp⟩
  | cfg, now, .str s =>
    ⟨[sanitizeFileName ("value" ++ cfg.fileExtension)], s,
      by simp [processJsonNode], by simp⟩
  | cfg, now, .arr .nil =>
    ⟨["empty_array.json"], "[]", by simp [processJsonNode], by simp⟩
  | cfg, now, .arr (.cons x xs) => by
    obtain ⟨q, c, hm, hq⟩ := exists_file_items cfg now x xs 0
    exact ⟨q, c, hm, hq⟩
  | cfg, now, .obj .nil =>
    ⟨["empty_object.json"], "\x7b\x7d", by simp [processJsonNode], by simp⟩
  | cfg, now, .obj (.cons k v fs) => by
    obtain ⟨q, c, hm, hq⟩ := exists_file_fields cfg now k v fs
    exact ⟨q, c, hm, hq⟩
termination_by _ _ v => 2 * sizeOf v
theorem exists_file_items : ∀ (cfg : ZipConfig) (now : String) (x : Json)
    (xs : JList) (i : Nat),
    ∃ q c, ZipWrite.file q c ∈ processArrayItems cfg now (.cons x xs) i ∧ q ≠ []
  | cfg, now, x, xs, i => by
    by_cases hx : x.isObjectLike = true
    · obtain ⟨q, c, hm, hq⟩ := exists_file_pjn cfg now x
      refine ⟨libItemName i :: q, c, ?_, by simp⟩
      simp only [processArrayItems, if_pos hx]
      exact List.mem_append_left _
        (List.mem_cons_of_mem _ (List.mem_map.mpr ⟨_, hm, rfl⟩))
    · simp only [processArrayItems, if_neg hx]
      refine ⟨_, _, List.mem_append_left _ (List.Mem.head _), ?_⟩
      simp
termination_by _ _ x xs _ => 1 + 2 * (sizeOf x + sizeOf xs)
theorem exists_file_fields : ∀ (cfg : ZipConfig) (now : String) (key : String)
    (v : Json) (fs : JFields),
    ∃ q c, ZipWrite.file q c ∈ processObjectFields cfg now (.cons key v fs) ∧
      q ≠ []
  | cfg, now, key, v, fs => by
    by_cases hv : v.isObjectLike = true
    · by_cases hrec : (v.isArr || decide (0 < v.objSize)) = true
      · obtain ⟨q, c, hm, hq⟩ := exists_file_pjn cfg now v
        refine ⟨sanitizeFileName key :: q, c, ?_, by simp⟩
        simp only [processObjectFields, if_pos hv, if_pos hrec]
        exact List.mem_append_left _
          (List.mem_cons_of_mem _ (List.mem_map.mpr ⟨_, hm, rfl⟩))
      · simp only [processObjectFields, if_pos hv, if_neg hrec]
        refine ⟨_, _, List.mem_append_left _ (List.Mem.head _), ?_⟩
        simp
    · by_cases ht : cfg.timestampFiles = true
      · simp only [processObjectFields, if_neg hv, if_pos ht]
        refine ⟨_, _, List.mem_append_left _ (List.Mem.head _), ?_⟩
        simp
      · simp only [processObjectFields, if_neg hv, if_neg ht]
        refine ⟨_, _, List.mem_append_left _ (List.Mem.head _), ?_⟩
        simp
termination_by _ _ _ v fs => 1 + 2 * (sizeOf v + sizeOf fs)
end

mutual
theorem dirsCovered_pjn : ∀ (cfg : ZipConfig) (now : String) (v : Json),
    DirsCovered (processJsonNode cfg now v)
  | _, _, .null => dirsCovered_singleton_file _ _
  | _, _, .bool _ => dirsCovered_singleton_file _ _
  | _, _, .num _ => dirsCovered_singleton_file _ _
  | _, _, .str _ => dirsCovered_singleton_file _ _
  | _, _, .arr .nil => dirsCovered_singleton_file _ _
  | cfg, now, .arr (.cons x xs) => dirsCovered_items cfg now (.cons x xs) 0
  | _, _, .obj .nil => dirsCovered_singleton_file _ _
  | cfg, now, .obj (.cons k v fs) => dirsCovered_fields cfg now (.cons k v fs)
termination_by _ _ v => 2 * sizeOf v
theorem dirsCovered_items : ∀ (cfg : ZipConfig) (now : String) (l : JList)
    (i : Nat), DirsCovered (processArrayItems cfg now l i)
  | _, _, .nil, _ => dirsCovered_nil
  | cfg, now, .cons x xs, i => by
    have hrest := dirsCovered_items cfg now xs (i + 1)
    by_cases hx : x.isObjectLike = true
    · have hblock := dirsCovered_block (libItemName i) _
        (dirsCovered_pjn cfg now x) (exists_file_pjn cfg now x)
      simp only [processArrayItems, if_pos hx]
      exact dirsCovered_append _ _ hblock hrest
    · simp only [processArrayItems, if_neg hx]
      exact dirsCovered_append _ _ (dirsCovered_singleton_file _ _) hrest
termination_by _ _ l _ => 1 + 2 * sizeOf l
theorem dirsCovered_fields : ∀ (cfg : ZipConfig) (now : String) (fs : JFields),
    DirsCovered (processObjectFields cfg now fs)
  | _, _, .nil => dirsCovered_nil
  | cfg, now, .cons key v fs => by
    have hrest := dirsCovered_fields cfg now fs
    by_cases hv : v.isObjectLike = true
    · by_cases hrec : (v.isArr || decide (0 < v.objSize)) = true
      · have hblock := dirsCovered_block (sanitizeFileName key) _
          (dirsCovered_pjn cfg now v) (exists_file_pjn cfg now v)
        simp only [processObjectFields, if_pos hv, if_pos hrec]
        exact dirsCovered_append _ _ hblock hrest
      · simp only [processObjectFields, if_pos hv, if_neg hrec]
        exact dirsCovered_append _ _ (dirsCovered_singleton_file _ _) hrest
    · by_cases ht : cfg.timestampFiles = true
      · simp only [processObjectFields, if_neg hv, if_pos ht]
        exact dirsCovered_append _ _ (dirsCovered_singleton_file _ _) hrest
      · simp only [processObjectFields, if_neg hv, if_neg ht]
        exact dirsCovered_append _ _ (dirsCovered_singleton_file _ _) hrest
termination_by _ _ fs => 1 + 2 * sizeOf fs
end

/-- C4 (amended): a root empty Object or Array produces exactly the
placeholder file (`empty_object.json` with content `\x7b\x7d`,
`empty_array.json` with content `[]`); a nested empty Array always recurses
into a folder holding its placeholder child, and so does an empty Object
appearing as an array element; but an empty Object appearing as an object
value is flattened to a single file `{key}{ext}` with content `\x7b\x7d`
instead of recursing; still, every folder the builder creates has at least
one file strictly below it. -/
theorem c4_empty_container_behaviour (cfg : ZipConfig) (now : String) :
    processJsonNode cfg now (Json.obj .nil) =
      [ZipWrite.file ["empty_object.json"] "\x7b\x7d"] ∧
    processJsonNode cfg now (Json.arr .nil) =
      [ZipWrite.file ["empty_array.json"] "[]"] ∧
    (∀ key : String,
      processJsonNode cfg now (Json.obj (.cons key (Json.arr .nil) .nil)) =
        [ZipWrite.dir [sanitizeFileName key],
         ZipWrite.file [sanitizeFileName key, "empty_array.json"] "[]"]) ∧
    (∀ i : Nat,
      processArrayItems cfg now (.cons (Json.obj .nil) .nil) i =
        [ZipWrite.dir [libItemName i],
         ZipWrite.file [libItemName i, "empty_object.json"] "\x7b\x7d"]) ∧
    (∀ key : String,
      processJsonNode cfg now (Json.obj (.cons key (Json.obj .nil) .nil)) =
        [ZipWrite.file
          [sanitizeFileName (sanitizeFileName key ++ cfg.fileExtension)]
          "\x7b\x7d"]) ∧
    (∀ (v : Json) (p : List String),
      ZipWrite.dir p ∈ processJsonNode cfg now v →
        ∃ q c, ZipWrite.file q c ∈ processJsonNode cfg now v ∧ p <+: q ∧ p ≠ q) :=
  ⟨rfl, rfl, fun _ => rfl, fun _ => rfl, fun _ => rfl,
   fun v p => dirsCovered_pjn cfg now v p⟩

/-- Witness for C4's folder-coverage conjunct at a concrete input: the
folder `k` created for the nested empty array contains a file strictly
below it. -/
theorem c4_empty_container_witness :
    ∃ q c, ZipWrite.file q c ∈ processJsonNode defaultZipConfig "T"
        (Json.obj (.cons "k" (Json.arr .nil) .nil)) ∧
      ["k"] <+: q ∧ ["k"] ≠ q :=
  (c4_empty_container_behaviour defaultZipConfig "T").2.2.2.2.2
    (Json.obj (.cons "k" (Json.arr .nil) .nil)) ["k"] (by decide)

/-- C4 counterexample: for the input assigning an empty object to the key
`a`, the writer emits the single file `a.json` with content `\x7b\x7d` and
creates neither the folder `a` nor a placeholder `a/empty_object.json`,
contradicting the claim that a nested empty Object still recurses into a
placeholder-holding folder. -/
theorem c4_nested_empty_object_flattened :
    processJsonNode defaultZipConfig "T"
        (Json.obj (.cons "a" (Json.obj .nil) .nil)) =
      [ZipWrite.file ["a.json"] "\x7b\x7d"] ∧
    ZipWrite.dir ["a"] ∉ processJsonNode defaultZipConfig "T"
      (Json.obj (.cons "a" (Json.obj .nil) .nil)) ∧
    ZipWrite.file ["a", "empty_object.json"] "\x7b\x7d" ∉
      processJsonNode defaultZipConfig "T"
        (Json.obj (.cons "a" (Json.obj .nil) .nil)) := by
  refine ⟨by decide, by decide, by decide⟩

/-! ### createFileStructure  (src/lib/zipGenerator.js lines 242-301) -/

/-- The `type` field of preview and tree nodes. -/
inductive NodeKind where
  | file
  | folder
deriving DecidableEq

mutual
/-- Preview node built by `createFileStructure`: a record of name, type,
children and depth. -/
inductive PNode where
  | mk (name : String) (kind : NodeKind) (children : PNList) (depth : Nat)
deriving DecidableEq
/-- Ordered children of a preview node. -/
inductive PNList where
  | nil
  | cons (head : PNode) (tail : PNList)
deriving DecidableEq
end

mutual
/-- `createFileStructure(data, name, depth)`: scalars give a File node named
`{name}.json` (raw name, hardcoded extension); arrays and objects give a
Folder node named `sanitize(name)` whose children follow the source order,
with `empty_array.json` / `empty_object.json` placeholder children for empty
containers. -/
def createFileStructure : Json → String → Nat → PNode
  | .arr .nil, name, depth =>
    .mk (sanitizeFileName name) .folder
      (.cons (.mk "empty_array.json" .file .nil (depth + 1)) .nil) depth
  | .arr (.cons x xs), name, depth =>
    .mk (sanitizeFileName name) .folder
      (previewItems (.cons x xs) (depth + 1) 0) depth
  | .obj .nil, name, depth =>
    .mk (sanitizeFileName name) .folder
      (.cons (.mk "empty_object.json" .file .nil (depth + 1)) .nil) depth
  | .obj (.cons k v fs), name, depth =>
    .mk (sanitizeFileName name) .folder
      (previewFields (.cons k v fs) (depth + 1)) depth
  | _, name, depth => .mk (name ++ ".json") .file .nil depth
/-- The forEach over array elements, carrying the child depth and index. -/
def previewItems : JList → Nat → Nat → PNList
  | .nil, _, _ => .nil
  | .cons x xs, depth, i =>
    .cons
      (if x.isObjectLike then createFileStructure x (libItemName i) depth
       else .mk (libItemName i ++ ".json") .file .nil depth)
      (previewItems xs depth (i + 1))
/-- The forEach over object keys, carrying the child depth. -/
def previewFields : JFields → Nat → PNList
  | .nil, _ => .nil
  | .cons key v fs, depth =>
    .cons
      (if v.isObjectLike then
        createFileStructure v (sanitizeFileName key) depth
       else .mk (sanitizeFileName key ++ ".json") .file .nil depth)
      (previewFields fs depth)
end

mutual
/-- Number of File leaves of a preview tree. -/
def countFileLeaves : PNode → Nat
  | .mk _ .file _ _ => 1
  | .mk _ .folder children _ => countFileLeavesList children
/-- Number of File leaves across a forest. -/
def countFileLeavesList : PNList → Nat
  | .nil => 0
  | .cons h t => countFileLeaves h + countFileLeavesList t
end

mutual
theorem leaves_createFileStructure : ∀ (v : Json) (name : String) (d : Nat),
    countFileLeaves (createFileStructure v name d) = leafCount v + emptyCount v
  | .null, _, _ => rfl
  | .bool _, _, _ => rfl
  | .num _, _, _ => rfl
  | .str _, _, _ => rfl
  | .arr .nil, _, _ => rfl
  | .arr (.cons x xs), name, d => by
    simp only [createFileStructure, countFileLeaves]
    rw [leaves_previewItems (.cons x xs) (d + 1) 0]
    rfl
  | .obj .nil, _, _ => rfl
  | .obj (.cons k v fs), name, d => by
    simp only [createFileStructure, countFileLeaves]
    rw [leaves_previewFields (.cons k v fs) (d + 1)]
    rfl
termination_by v _ _ => 2 * sizeOf v
theorem leaves_previewItems : ∀ (l : JList) (d i : Nat),
    countFileLeavesList (previewItems l d i) =
      leafCountItems l + emptyCountItems l
  | .nil, _, _ => rfl
  | .cons x xs, d, i => by
    simp only [previewItems, countFileLeavesList]
    rw [leaves_previewItems xs d (i + 1)]
    by_cases hx : x.isObjectLike = true
    · rw [if_pos hx, leaves_createFileStructure x (libItemName i) d]
      simp only [leafCountItems, emptyCountItems]
      omega
    · rw [if_neg hx]
      have hs := scalar_counts x (by simpa using hx)
      simp only [countFileLeaves, leafCountItems, emptyCountItems]
      omega
termination_by l _ _ => 1 + 2 * sizeOf l
theorem leaves_previewFields : ∀ (fs : JFields) (d : Nat),
    countFileLeavesList (previewFields fs d) =
      leafCountFields fs + emptyCountFields fs
  | .nil, _ => rfl
  | .cons key v fs, d => by
    simp only [previewFields, countFileLeavesList]
    rw [leaves_previewFields fs d]
    by_cases hv : v.isObjectLike = true
    · rw [if_pos hv, leaves_createFileStructure v (sanitizeFileName key) d]
      simp only [leafCountFields, emptyCountFields]
      omega
    · rw [if_neg hv]
      have hs := scalar_counts v (by simpa using hv)
      simp only [countFileLeaves, leafCountFields, emptyCountFields]
      omega
termination_by fs _ => 1 + 2 * sizeOf fs
end

/-- C6 (amended): building the preview tree always terminates (it is a total
function here) and its number of File leaves equals the statistics
collector's `fileCount` plus one extra leaf for every empty object or empty
array occurring in the value (whose synthetic placeholder children are File
leaves not counted by `fileCount`). -/
theorem c6_file_leaves_vs_statistics (v : Json) (name : String) (d : Nat) :
    countFileLeaves (createFileStructure v name d) =
      (analyzeJsonStructure v 0).fileCount + emptyCount v := by
  rw [analyze_fileCount]
  exact leaves_createFileStructure v name d

/-- C6 counterexample: on the empty object the tree has one File leaf (the
placeholder) while `fileCount` is 0. -/
theorem c6_empty_object_extra_leaf :
    countFileLeaves (createFileStructure (Json.obj .nil) "root" 0) = 1 ∧
    (analyzeJsonStructure (Json.obj .nil) 0).fileCount = 0 ∧
    (1 : Nat) ≠ 0 := by
  refine ⟨by decide, by decide, by decide⟩

/-- C5 (amended): a scalar at the root of the *preview tree* yields a single
File node named `{rootName}.json` (extension hardcoded to `.json`, root name
not sanitized in the File branch); the *zip writer* instead names the data
file `null{ext}` for a null root (content `null`) inside the root folder, so
`convert(null, "root", {})` produces `root/null.json` with content `null`
plus `root/README.md` and `root/_metadata.json`, both enabled by the default
options. -/
theorem c5_scalar_root (now rootName : String) (d : Nat) :
    createFileStructure Json.null rootName d =
      .mk (rootName ++ ".json") .file .nil d ∧
    (∀ n : Int, createFileStructure (Json.num n) rootName d =
      .mk (rootName ++ ".json") .file .nil d) ∧
    (∀ b : Bool, createFileStructure (Json.bool b) rootName d =
      .mk (rootName ++ ".json") .file .nil d) ∧
    (∀ s : String, createFileStructure (Json.str s) rootName d =
      .mk (rootName ++ ".json") .file .nil d) ∧
    processJsonNode defaultZipConfig now Json.null =
      [ZipWrite.file ["null.json"] "null"] ∧
    generateZipFromJson now Json.null "root" defaultZipConfig =
      [ZipWrite.dir ["root"],
       ZipWrite.file ["root", "null.json"] "null",
       ZipWrite.file ["root", "README.md"]
         (generateReadmeContent now Json.null "root"),
       ZipWrite.file ["root", "_metadata.json"]
         (jsonStringifyPretty (generateMetadata now Json.null "root"))] :=
  ⟨rfl, fun _ => rfl, fun _ => rfl, fun _ => rfl, rfl, rfl⟩

/-- C5 counterexample: `convert(null, "root", {})` does not produce an
archive with the single file `root.json`: it writes three files, the data
file is named `root/null.json`, and none of the entries is `root.json`. -/
theorem c5_null_convert_not_single_root_json :
    filePaths (generateZipFromJson "T" Json.null "root" defaultZipConfig) =
      [["root", "null.json"], ["root", "README.md"],
       ["root", "_metadata.json"]] ∧
    (filePaths (generateZipFromJson "T" Json.null "root"
      defaultZipConfig)).length = 3 ∧
    (3 : Nat) ≠ 1 ∧
    (["root", "null.json"] : List String) ≠ ["root.json"] := by
  refine ⟨by decide, by decide, by decide, by decide⟩

/-! ### Decimal length bounds for item numbering (claim C8) -/

theorem toDigitsCore_length_lower :
    ∀ (f k n : Nat) (acc : List Char), n < 10 ^ f → 10 ^ k ≤ n →
      k + 1 + acc.length ≤ (Nat.toDigitsCore 10 f n acc).length := by
  intro f
  induction f with
  | zero =>
    intro k n acc h1 h2
    have := Nat.pos_pow_of_pos k (by norm_num : 0 < 10)
    omega
  | succ f ih =>
    intro k n acc h1 h2
    simp only [Nat.toDigitsCore]
    by_cases hdiv : n / 10 = 0
    · rw [if_pos hdiv]
      have hn10 : n < 10 := by
        rcases Nat.lt_or_ge n 10 with h | h
        · exact h
        · exact absurd hdiv (by
            have : 1 ≤ n / 10 := (Nat.le_div_iff_mul_le (by norm_num)).mpr (by omega)
            omega)
      have hk : k = 0 := by
        by_contra hk0
        have hk1 : 1 ≤ k := Nat.one_le_iff_ne_zero.mpr hk0
        have : 10 ^ 1 ≤ 10 ^ k := Nat.pow_le_pow_right (by norm_num) hk1
        simp at this
        omega
      subst hk
      simp only [List.length_cons]
      omega
    · rw [if_neg hdiv]
      have hlt : n / 10 < 10 ^ f :=
        Nat.nat_repr_len_aux n 10 f (by norm_num) h1
      cases k with
      | zero =>
        have h10 : 10 ^ 0 ≤ n / 10 := by
          have : 1 ≤ n / 10 := Nat.one_le_iff_ne_zero.mpr hdiv
          simpa using this
        have := ih 0 (n / 10) (Nat.digitChar (n % 10) :: acc) hlt h10
        simp only [List.length_cons] at this
        omega
      | succ k' =>
        have h10 : 10 ^ k' ≤ n / 10 := by
          rw [Nat.le_div_iff_mul_le (by norm_num : 0 < 10)]
          calc 10 ^ k' * 10 = 10 ^ (k' + 1) := (pow_succ 10 k').symm
            _ ≤ n := h2
        have := ih k' (n / 10) (Nat.digitChar (n % 10) :: acc) hlt h10
        simp only [List.length_cons] at this
        omega

/-- Lower bound on the decimal representation: `10^k ≤ n` forces at least
`k + 1` digits. -/
theorem repr_length_lower (n k : Nat) (h : 10 ^ k ≤ n) :
    k + 1 ≤ (Nat.repr n).length := by
  have hlt : n < 10 ^ (n + 1) := by
    calc n < 10 ^ n := Nat.lt_pow_self (by norm_num) n
      _ ≤ 10 ^ (n + 1) := Nat.pow_le_pow_right (by norm_num) (Nat.le_succ n)
  have := toDigitsCore_length_lower (n + 1) k n [] hlt h
  simp only [List.length_nil, Nat.add_zero] at this
  show k + 1 ≤ (Nat.toDigits 10 n).asString.length
  simpa [Nat.toDigits, List.asString, String.length] using this

theorem jsPadStart_of_le (s : String) (n : Nat) (c : Char) (h : n ≤ s.length) :
    jsPadStart s n c = s := by
  simp [jsPadStart, h]

theorem jsPadStart_length (s : String) (n : Nat) (c : Char) :
    (jsPadStart s n c).length = max n s.length := by
  unfold jsPadStart
  by_cases h : n ≤ s.length
  · rw [if_pos h]
    exact (Nat.max_eq_right h).symm
  · rw [if_neg h]
    rw [String.length_append]
    have h1 : (String.mk (List.replicate (n - s.length) c)).length =
        n - s.length := by
      show (List.replicate (n - s.length) c).length = n - s.length
      exact List.length_replicate _ _
    omega

/-- Indices with four or more decimal digits are not padded further. -/
theorem libItemName_of_ge_1000 (i : Nat) (h : 1000 ≤ i) :
    libItemName i = "item_" ++ Nat.repr i := by
  unfold libItemName
  congr 1
  apply jsPadStart_of_le
  have := repr_length_lower i 3 (by simpa using h)
  omega

/-- Indices below 1000 are padded to exactly three digits. -/
theorem padded_index_length_of_lt_1000 (i : Nat) (h : i < 1000) :
    (jsPadStart (Nat.repr i) 3 '0').length = 3 := by
  rw [jsPadStart_length]
  have hle : (Nat.repr i).length ≤ 3 :=
    Nat.repr_length i 3 (by norm_num) (by simpa using h)
  omega

/-! ### The tree-preview module  (src/unnamed/part_003) -/

mutual
/-- `TreeNode` from src/unnamed/part_003 lines 105-128: name, type, value,
children and the `isExpanded` flag (always constructed `true`).  The `id`
field — a fresh `Math.random()` token never read by any counted operation —
is omitted from the model. -/
inductive TreeNode where
  | mk (name : String) (kind : NodeKind) (value : Option Json)
      (children : TNList) (isExpanded : Bool)
deriving DecidableEq
/-- Ordered children of a tree node. -/
inductive TNList where
  | nil
  | cons (head : TreeNode) (tail : TNList)
deriving DecidableEq
end

/-- The `name` field. -/
def TreeNode.nameOf : TreeNode → String
  | .mk name _ _ _ _ => name

/-- Zero-based child access. -/
def TNList.get? : TNList → Nat → Option TreeNode
  | .nil, _ => none
  | .cons h _, 0 => some h
  | .cons _ t, n + 1 => t.get? n

/-- `currentPath = parentPath ? parentPath + '/' + name : name`. -/
def joinPath (parent seg : String) : String :=
  if parent = "" then seg else parent ++ "/" ++ seg

mutual
/-- `createTreeNode(data, name, parentPath)` inside `generateTreeStructure`
(src/unnamed/part_003 lines 137-171): null gives a File node holding the
string `null` and no extension; objects and arrays give Folder nodes with
children in source order, array children named `item_{index}` with the
index at natural width; other scalars give a File node named
`{name}{classified extension}` holding the value.  The path argument is
computed and passed down but never used in a node. -/
def createTreeNode (p : String → Bool) : Json → String → String → TreeNode
  | .null, name, _ => .mk name .file (some (.str "null")) .nil true
  | .obj fs, name, parentPath =>
    .mk name .folder none (treeFields p fs (joinPath parentPath name)) true
  | .arr l, name, parentPath =>
    .mk name .folder none (treeItems p l (joinPath parentPath name) 0) true
  | v, name, _ => .mk (name ++ getFileExtension p v) .file (some v) .nil true
/-- The forEach over array elements, carrying the element index. -/
def treeItems (p : String → Bool) : JList → String → Nat → TNList
  | .nil, _, _ => .nil
  | .cons x xs, currentPath, i =>
    .cons (createTreeNode p x ("item_" ++ Nat.repr i) currentPath)
      (treeItems p xs currentPath (i + 1))
/-- The forEach over object entries. -/
def treeFields (p : String → Bool) : JFields → String → TNList
  | .nil, _ => .nil
  | .cons key v fs, currentPath =>
    .cons (createTreeNode p v key currentPath) (treeFields p fs currentPath)
end

/-- `generateTreeStructure(jsonData, rootName)` from src/unnamed/part_003
lines 136-174. -/
def generateTreeStructure (p : String → Bool) (jsonData : Json)
    (rootName : String) : TreeNode :=
  createTreeNode p jsonData rootName ""

mutual
/-- `TreeNode.getFileCount`: 1 for a file, else the sum over children. -/
def TreeNode.getFileCount : TreeNode → Nat
  | .mk _ kind _ children _ =>
    if kind = .file then 1 else TNList.sumFileCount children
/-- The `reduce` over children in `getFileCount`. -/
def TNList.sumFileCount : TNList → Nat
  | .nil => 0
  | .cons h t => h.getFileCount + TNList.sumFileCount t
end

mutual
/-- `TreeNode.getFolderCount`: 1 for a folder plus the sum over children
(files also reduce over their — empty — children). -/
def TreeNode.getFolderCount : TreeNode → Nat
  | .mk _ kind _ children _ =>
    (if kind = .folder then 1 else 0) + TNList.sumFolderCount children
/-- The `reduce` over children in `getFolderCount`. -/
def TNList.sumFolderCount : TNList → Nat
  | .nil => 0
  | .cons h t => h.getFolderCount + TNList.sumFolderCount t
end

/-- The statistics record of `getTreeStatistics`. -/
structure TStats where
  totalFiles : Nat
  totalFolders : Nat
  maxDepth : Nat
  totalSize : Nat
deriving DecidableEq

/-- JS falsiness of a JSON value: null, false, 0 and the empty string. -/
def jsFalsy : Json → Bool
  | .null => true
  | .bool b => !b
  | .num n => n = 0
  | .str s => s.isEmpty
  | _ => false

/-- JS `String(node.value || '')`, where the `value` field is `null`
(`none`) on folder nodes. -/
def displayString : Option Json → String
  | none => ""
  | some v => if jsFalsy v then "" else jsString v

mutual
/-- The recursive worker `calculateStats(node, depth)` of
`getTreeStatistics` (src/unnamed/part_003 lines 258-270), threading the
mutated `stats` record: the depth maximum is updated at every node; files
bump `totalFiles` and add their rendered length to `totalSize`; folders bump
`totalFolders` and recurse into children at `depth + 1`. -/
def calculateStats : TreeNode → Nat → TStats → TStats
  | .mk _ kind value children _, depth, acc =>
    let acc1 : TStats :=
      ⟨acc.totalFiles, acc.totalFolders, max acc.maxDepth depth, acc.totalSize⟩
    if kind = .file then
      ⟨acc1.totalFiles + 1, acc1.totalFolders, acc1.maxDepth,
       acc1.totalSize + (displayString value).length⟩
    else
      calcStatsList children (depth + 1)
        ⟨acc1.totalFiles, acc1.totalFolders + 1, acc1.maxDepth, acc1.totalSize⟩
/-- Sequential fold of `calculateStats` over the children. -/
def calcStatsList : TNList → Nat → TStats → TStats
  | .nil, _, acc => acc
  | .cons h t, depth, acc => calcStatsList t depth (calculateStats h depth acc)
end

/-- `getTreeStatistics(treeNode)` from src/unnamed/part_003 lines 250-274. -/
def getTreeStatistics (t : TreeNode) : TStats := calculateStats t 0 ⟨0, 0, 0, 0⟩

mutual
/-- Well-formedness of trees as `generateTreeStructure` builds them: file
nodes carry no children.  (On an arbitrary hand-built tree, `getFolderCount`
sums over the children of a file node while the statistics traversal does
not descend into them.) -/
def TreeNode.wf : TreeNode → Prop
  | .mk _ kind _ children _ =>
    (kind = NodeKind.file → children = .nil) ∧ TNList.wfAll children
/-- All trees of the forest are well-formed. -/
def TNList.wfAll : TNList → Prop
  | .nil => True
  | .cons h t => h.wf ∧ TNList.wfAll t
end

mutual
theorem wf_createTreeNode : ∀ (p : String → Bool) (v : Json)
    (name parentPath : String), (createTreeNode p v name parentPath).wf
  | _, .null, _, _ => ⟨fun _ => rfl, trivial⟩
  | _, .bool _, _, _ => ⟨fun _ => rfl, trivial⟩
  | _, .num _, _, _ => ⟨fun _ => rfl, trivial⟩
  | _, .str _, _, _ => ⟨fun _ => rfl, trivial⟩
  | p, .arr l, name, pp => by
    refine ⟨fun h => ?_, wfAll_treeItems p l (joinPath pp name) 0⟩
    cases h
  | p, .obj fs, name, pp => by
    refine ⟨fun h => ?_, wfAll_treeFields p fs (joinPath pp name)⟩
    cases h
termination_by _ v _ _ => 2 * sizeOf v
theorem wfAll_treeItems : ∀ (p : String → Bool) (l : JList) (cur : String)
    (i : Nat), TNList.wfAll (treeItems p l cur i)
  | _, .nil, _, _ => trivial
  | p, .cons x xs, cur, i =>
    ⟨wf_createTreeNode p x ("item_" ++ Nat.repr i) cur,
     wfAll_treeItems p xs cur (i + 1)⟩
termination_by _ l _ _ => 1 + 2 * sizeOf l
theorem wfAll_treeFields : ∀ (p : String → Bool) (fs : JFields)
    (cur : String), TNList.wfAll (treeFields p fs cur)
  | _, .nil, _ => trivial
  | p, .cons key v fs, cur =>
    ⟨wf_createTreeNode p v key cur, wfAll_treeFields p fs cur⟩
termination_by _ fs _ => 1 + 2 * sizeOf fs
end

mutual
theorem calcStats_totalFiles : ∀ (t : TreeNode) (d : Nat) (acc : TStats),
    (calculateStats t d acc).totalFiles = acc.totalFiles + t.getFileCount
  | .mk name kind value children exp, d, acc => by
    cases kind with
    | file => simp [calculateStats, TreeNode.getFileCount]
    | folder =>
      simp only [calculateStats, TreeNode.getFileCount]
      rw [if_neg (show ¬ (NodeKind.folder = NodeKind.file) from by decide),
        if_neg (show ¬ (NodeKind.folder = NodeKind.file) from by decide)]
      rw [calcStatsList_totalFiles children (d + 1) _]
termination_by t _ _ => 2 * sizeOf t
theorem calcStatsList_totalFiles : ∀ (l : TNList) (d : Nat) (acc : TStats),
    (calcStatsList l d acc).totalFiles = acc.totalFiles + TNList.sumFileCount l
  | .nil, _, _ => by simp [calcStatsList, TNList.sumFileCount]
  | .cons h t, d, acc => by
    simp only [calcStatsList, TNList.sumFileCount]
    rw [calcStatsList_totalFiles t d _, calcStats_totalFiles h d acc]
    omega
termination_by l _ _ => 1 + 2 * sizeOf l
end

mutual
theorem calcStats_totalFolders : ∀ (t : TreeNode) (d : Nat) (acc : TStats),
    t.wf →
    (calculateStats t d acc).totalFolders = acc.totalFolders + t.getFolderCount
  | .mk name kind value children exp, d, acc, hwf => by
    cases kind with
    | file =>
      have hch : children = .nil := hwf.1 rfl
      subst hch
      simp [calculateStats, TreeNode.getFolderCount, TNList.sumFolderCount]
    | folder =>
      simp only [calculateStats, TreeNode.getFolderCount]
      rw [if_neg (show ¬ (NodeKind.folder = NodeKind.file) from by decide)]
      rw [calcStatsList_totalFolders children (d + 1) _ hwf.2]
      simp
      omega
termination_by t _ _ _ => 2 * sizeOf t
theorem calcStatsList_totalFolders : ∀ (l : TNList) (d : Nat) (acc : TStats),
    TNList.wfAll l →
    (calcStatsList l d acc).totalFolders =
      acc.totalFolders + TNList.sumFolderCount l
  | .nil, _, _, _ => by simp [calcStatsList, TNList.sumFolderCount]
  | .cons h t, d, acc, hwf => by
    simp only [calcStatsList, TNList.sumFolderCount]
    rw [calcStatsList_totalFolders t d _ hwf.2, calcStats_totalFolders h d acc hwf.1]
    omega
termination_by l _ _ _ => 1 + 2 * sizeOf l
end

/-! ### The API route  (src/pages/api/generate-zip.js) -/

/-- A write to the API route's zip: JSZip string paths. -/
inductive ApiWrite where
  | file (path : String) (content : String)
  | dir (path : String)
deriving DecidableEq

/-- `Array.isArray(value) ? value.length : 0` (guarded at call sites). -/
def Json.arrLen : Json → Nat
  | .arr l => l.length
  | _ => 0

/-- The key sanitization of the API route (line 37): only
`/[<>:"/\\|?*]/g → '_'`, with none of the library's further stages. -/
def apiSanitizeKey (s : String) : String :=
  String.mk (replaceForbidden s.data)

mutual
/-- `processJsonStructure(obj, currentPath)` from
src/pages/api/generate-zip.js lines 20-64: arrays emit one entry per element
at `item_{index}` (natural-width index, no folder entry for the element
itself); objects emit an empty folder for empty array/object values, recurse
into other object-like values, and write `{key}.txt` (strings) or
`{key}.json` (other scalars) files; a primitive reaching this function
directly (only possible at the root) is written to `currentPath`, or
`data.txt` when the path is empty. -/
def processJsonStructure : Json → String → List ApiWrite
  | .arr l, currentPath => apiItems l currentPath 0
  | .obj fs, currentPath => apiFields fs currentPath
  | v, currentPath =>
    [.file (if currentPath = "" then "data.txt" else currentPath) (jsString v)]
/-- The forEach over array elements (lines 23-33). -/
def apiItems : JList → String → Nat → List ApiWrite
  | .nil, _, _ => []
  | .cons x xs, currentPath, i =>
    (let itemPath := joinPath currentPath ("item_" ++ Nat.repr i)
     if x.isObjectLike then processJsonStructure x itemPath
     else [.file (itemPath ++ ".txt") (jsString x)])
    ++ apiItems xs currentPath (i + 1)
/-- The forEach over object entries (lines 36-58). -/
def apiFields : JFields → String → List ApiWrite
  | .nil, _ => []
  | .cons key v fs, currentPath =>
    (let itemPath := joinPath currentPath (apiSanitizeKey key)
     if v.isObjectLike then
       if v.isArr && v.arrLen == 0 then [.dir itemPath]
       else if !v.isArr && v.objSize == 0 then [.dir itemPath]
       else processJsonStructure v itemPath
     else
       [.file
         (itemPath ++ (match v with
           | .str _ => ".txt"
           | _ => ".json"))
         (match v with
          | .str s => s
          | w => jsonStringifyPretty w)])
    ++ apiFields fs currentPath

end

/-- The folder keys JSZip registers implicitly for a slash-separated path:
every proper prefix of the component list, each rendered with a trailing
slash. -/
def prefixFolderKeys : List String → List String
  | [] => []
  | [_] => []
  | c :: rest => (c ++ "/") :: (prefixFolderKeys rest).map (fun s => c ++ "/" ++ s)

/-- The keys one write contributes to `zip.files`: the entry itself (with a
trailing slash for folders) plus its implicit ancestor folders. -/
def keysOfWrite : ApiWrite → List String
  | .file p _ => prefixFolderKeys (p.splitOn "/") ++ [p]
  | .dir p => prefixFolderKeys (p.splitOn "/") ++ [p ++ "/"]

/-- `Object.keys(zip.files).length` after the given writes. -/
def apiZipKeyCount (ws : List ApiWrite) : Nat :=
  ((ws.map keysOfWrite).flatten).dedup.length

/-- The `_metadata.json` record of the API route (lines 70-74). -/
def apiMetadata (now : String) (jsonData : Json) : Json :=
  Json.obj (.cons "generatedAt" (.str now)
    (.cons "originalStructure" jsonData
      (.cons "fileCount"
        (.num (apiZipKeyCount (processJsonStructure jsonData ""))) .nil)))

/-- `zipName || 'converted-json-structure.zip'`. -/
def apiZipName : Option String → String
  | none => "converted-json-structure.zip"
  | some s => if s = "" then "converted-json-structure.zip" else s

/-- The outcome of the API handler: 405, 400 with an error message, or 200
with the zip writes (structure files plus `_metadata.json`) and the download
file name. -/
inductive ApiResponse where
  | methodNotAllowed
  | badRequest (error : String)
  | ok (writes : List ApiWrite) (fileName : String)
deriving DecidableEq

/-- The exported request handler of src/pages/api/generate-zip.js: non-POST
methods get 405; a missing or falsy `jsonData` body field gets 400 with
"JSON data is required"; otherwise the JSON structure is processed, the
metadata entry appended, and the archive returned. -/
def apiHandler (method : String) (jsonData : Option Json)
    (zipName : Option String) (now : String) : ApiResponse :=
  if method ≠ "POST" then .methodNotAllowed
  else
    match jsonData with
    | none => .badRequest "JSON data is required"
    | some j =>
      if jsFalsy j then .badRequest "JSON data is required"
      else
        .ok (processJsonStructure j "" ++
          [.file "_metadata.json" (jsonStringifyPretty (apiMetadata now j))])
          (apiZipName zipName)

example : processJsonStructure
    (Json.obj (.cons "a" (Json.num 1) (.cons "b" (Json.str "x") .nil))) "" =
    [ApiWrite.file "a.json" "1", ApiWrite.file "b.txt" "x"] := by decide

example : apiHandler "GET" (some (Json.num 1)) none "T" =
    ApiResponse.methodNotAllowed := by decide

theorem treeItems_child_name (p : String → Bool) :
    ∀ (l : JList) (cur : String) (i j : Nat) (t : TreeNode),
      (treeItems p l cur i).get? j = some t →
      ∃ e, t.nameOf = "item_" ++ Nat.repr (i + j) ++ e
  | .nil, cur, i, j, t => by
    intro h
    simp [treeItems, TNList.get?] at h
  | .cons x xs, cur, i, j, t => by
    intro h
    cases j with
    | zero =>
      simp only [treeItems, TNList.get?] at h
      have ht : createTreeNode p x ("item_" ++ Nat.repr i) cur = t :=
        Option.some.inj h
      subst ht
      cases x with
      | null => exact ⟨"", by simp [createTreeNode, TreeNode.nameOf]⟩
      | bool b =>
        exact ⟨getFileExtension p (.bool b),
          by simp [createTreeNode, TreeNode.nameOf]⟩
      | num n =>
        exact ⟨getFileExtension p (.num n),
          by simp [createTreeNode, TreeNode.nameOf]⟩
      | str s =>
        exact ⟨getFileExtension p (.str s),
          by simp [createTreeNode, TreeNode.nameOf]⟩
      | arr l2 => exact ⟨"", by simp [createTreeNode, TreeNode.nameOf]⟩
      | obj fs2 => exact ⟨"", by simp [createTreeNode, TreeNode.nameOf]⟩
    | succ j =>
      simp only [treeItems, TNList.get?] at h
      obtain ⟨e, he⟩ := treeItems_child_name p xs cur (i + 1) j t h
      refine ⟨e, ?_⟩
      rw [he]
      have harith : i + 1 + j = i + (j + 1) := by omega
      rw [harith]

/-- C8 (amended): only `zipGenerator.js` pads array indices —
`item_{padStart(i, 3, '0')}` — and there indices below 1000 render at
exactly three digits while indices with three or more digits (in particular
all indices at or above 1000) render at natural width.  The tree-preview
builder (`generateTreeStructure`) and the API route's
`processJsonStructure` name array children `item_{i}` with the index at
natural width and no padding at all. -/
theorem c8_item_index_padding (p : String → Bool) :
    (∀ s : String, 3 ≤ s.length → jsPadStart s 3 '0' = s) ∧
    (∀ i : Nat, 1000 ≤ i → libItemName i = "item_" ++ Nat.repr i) ∧
    (∀ i : Nat, i < 1000 → (jsPadStart (Nat.repr i) 3 '0').length = 3) ∧
    (∀ (l : JList) (cur : String) (i j : Nat) (t : TreeNode),
      (treeItems p l cur i).get? j = some t →
      ∃ e, t.nameOf = "item_" ++ Nat.repr (i + j) ++ e) ∧
    (∀ (x : Json) (cur : String) (i : Nat), x.isObjectLike = false →
      apiItems (.cons x .nil) cur i =
        [.file (joinPath cur ("item_" ++ Nat.repr i) ++ ".txt") (jsString x)]) :=
  ⟨fun s h => jsPadStart_of_le s 3 '0' h,
   libItemName_of_ge_1000,
   padded_index_length_of_lt_1000,
   treeItems_child_name p,
   fun x cur i hx => by
     simp only [apiItems]
     rw [if_neg (by simp [hx])]
     rfl⟩

/-- Witness for C8's amended theorem at concrete inputs: a three-digit
padded name for index 7, natural width for index 1234, the tree child at
index 0 of `[null]` named `item_0` (plus empty extension), and the API
naming for index 0 of a numeric element. -/
theorem c8_item_index_padding_witness :
    libItemName 7 = "item_007" ∧
    libItemName 1234 = "item_" ++ Nat.repr 1234 ∧
    (∃ e, TreeNode.nameOf (TreeNode.mk "item_0" .file (some (.str "null"))
      .nil true) = "item_" ++ Nat.repr (0 + 0) ++ e) ∧
    apiItems (.cons (Json.num 1) .nil) "" 0 =
      [.file (joinPath "" ("item_" ++ Nat.repr 0) ++ ".txt")
        (jsString (Json.num 1))] :=
  ⟨by decide,
   (c8_item_index_padding jsonParses).2.1 1234 (by decide),
   (c8_item_index_padding jsonParses).2.2.2.1
     (.cons Json.null .nil) "root" 0 0
     (TreeNode.mk "item_0" .file (some (.str "null")) .nil true) (by decide),
   (c8_item_index_padding jsonParses).2.2.2.2 (Json.num 1) "" 0 (by decide)⟩

/-- C8 counterexample: at index 0 the tree-preview builder names the child
`item_0` and the API route writes `item_0.txt`, not the `item_000` the claim
requires; the zipGenerator name for the same index is `item_000`. -/
theorem c8_unpadded_names_at_index_zero :
    generateTreeStructure jsonParses (Json.arr (.cons Json.null .nil)) "root" =
      TreeNode.mk "root" .folder none
        (.cons (.mk "item_0" .file (some (.str "null")) .nil true) .nil) true ∧
    ("item_0" : String) ≠ "item_000" ∧
    processJsonStructure (Json.arr (.cons (Json.num 1) .nil)) "" =
      [ApiWrite.file "item_0.txt" "1"] ∧
    libItemName 0 = "item_000" := by
  refine ⟨by decide, by decide, by decide, by decide⟩

/-- C9: the generate-zip API handler rejects every falsy `jsonData` body
field — null, false, 0, the empty string, and an absent field — with status
400 and error "JSON data is required", producing no archive; every truthy
`jsonData` is converted and returned with the metadata entry appended. -/
theorem c9_falsy_json_rejected (zn : Option String) (now : String) :
    (∀ j : Json, jsFalsy j = true →
      apiHandler "POST" (some j) zn now = .badRequest "JSON data is required") ∧
    apiHandler "POST" none zn now = .badRequest "JSON data is required" ∧
    (∀ j : Json, jsFalsy j = false →
      apiHandler "POST" (some j) zn now =
        .ok (processJsonStructure j "" ++
          [.file "_metadata.json" (jsonStringifyPretty (apiMetadata now j))])
          (apiZipName zn)) := by
  refine ⟨?_, ?_, ?_⟩
  · intro j hj
    simp [apiHandler, hj]
  · simp [apiHandler]
  · intro j hj
    simp [apiHandler, hj]

/-- Witness for C9 at the concrete falsy inputs 0 and null and the concrete
truthy input 1. -/
theorem c9_falsy_json_rejected_witness :
    (jsFalsy (Json.num 0) = true ∧
      apiHandler "POST" (some (Json.num 0)) none "T" =
        .badRequest "JSON data is required") ∧
    (jsFalsy Json.null = true ∧
      apiHandler "POST" (some Json.null) none "T" =
        .badRequest "JSON data is required") ∧
    (jsFalsy (Json.num 1) = false ∧
      apiHandler "POST" (some (Json.num 1)) none "T" =
        .ok (processJsonStructure (Json.num 1) "" ++
          [.file "_metadata.json"
            (jsonStringifyPretty (apiMetadata "T" (Json.num 1)))])
          (apiZipName none)) :=
  ⟨⟨by decide, (c9_falsy_json_rejected none "T").1 (Json.num 0) (by decide)⟩,
   ⟨by decide, (c9_falsy_json_rejected none "T").1 Json.null (by decide)⟩,
   ⟨by decide, (c9_falsy_json_rejected none "T").2.2 (Json.num 1) (by decide)⟩⟩

/-- C10: for every tree produced by `generateTreeStructure`, the
method-based counts and the traversal-based statistics agree:
`getFileCount` equals `totalFiles` and `getFolderCount` equals
`totalFolders`. -/
theorem c10_tree_counts_agree (p : String → Bool) (jsonData : Json)
    (rootName : String) :
    (generateTreeStructure p jsonData rootName).getFileCount =
      (getTreeStatistics (generateTreeStructure p jsonData rootName)).totalFiles ∧
    (generateTreeStructure p jsonData rootName).getFolderCount =
      (getTreeStatistics (generateTreeStructure p jsonData rootName)).totalFolders := by
  constructor
  · rw [getTreeStatistics, calcStats_totalFiles]
    simp
  · simp only [generateTreeStructure]
    rw [getTreeStatistics,
      calcStats_totalFolders _ _ _ (wf_createTreeNode p jsonData rootName "")]
    simp
